import Mathlib

/-!
Verification development for the quarterly financial reconciliation engine
(`tr_functions/quarterly_overview.py`).

The Python engine works on string-keyed dictionaries (`quarterly_data`,
`annual_data`), where each quarter maps to a dict holding metric values
(integers), filing-date strings (keys ending in `_filed`), provenance flags
(keys ending in `_calculated`), debt components, shares outstanding, and an
`end_date` string.  We embed those dictionaries as insertion-ordered
association lists: assignment to an existing key replaces the value in place,
assignment to a fresh key appends, exactly like CPython dicts.
-/

/-- A value stored in a quarter record: SEC numeric values are integers,
filing dates and end dates are ISO strings, provenance flags are booleans. -/
inductive Val where
  | vi : Int → Val
  | vs : String → Val
  | vb : Bool → Val
deriving DecidableEq, Repr

/-- A quarter record: the Python per-quarter dict. -/
abbrev Row := List (String × Val)

/-- The working table: the Python `quarterly_data` / `annual_data` dicts. -/
abbrev Store := List (String × Row)

/-- Dict lookup: value of the first entry with the given key. -/
def aGet {β : Type} (l : List (String × β)) (k : String) : Option β :=
  (l.find? (fun p => p.1 == k)).map Prod.snd

/-- Dict assignment: replace in place when the key exists, append otherwise. -/
def aSet {β : Type} (l : List (String × β)) (k : String) (v : β) : List (String × β) :=
  if l.any (fun p => p.1 == k) then
    l.map (fun p => if p.1 == k then (k, v) else p)
  else l ++ [(k, v)]

/-- Lookup in a quarter record. -/
def rowGet (r : Row) (k : String) : Option Val := aGet r k

/-- Assignment in a quarter record. -/
def rowSet (r : Row) (k : String) (v : Val) : Row := aSet r k v

/-- Lookup of a quarter record in the working table. -/
def storeGet (s : Store) (k : String) : Option Row := aGet s k

/-- Assignment of a quarter record in the working table. -/
def storeSet (s : Store) (k : String) (r : Row) : Store := aSet s k r

/-- `dict.get(key, '0')` when reading a stored filing-date string. -/
def getFiledD (r : Row) (k : String) : String :=
  match rowGet r k with
  | some (Val.vs s) => s
  | _ => "0"

/-- Integer value stored at a key, absent when the key is missing. -/
def getIntVal (r : Row) (k : String) : Option Int :=
  match rowGet r k with
  | some (Val.vi n) => some n
  | _ => none

/-- `frame.rstrip('I')`: drop every trailing `I` from a period key, unifying
instant frames such as `CY2023Q1I` with the duration frame `CY2023Q1`. -/
def stripI (s : String) : String :=
  String.mk ((s.data.reverse.dropWhile (fun c => c == 'I')).reverse)

/-- Lexicographic strict comparison of char lists by code point: the order
Python uses for `str` comparison (`filed > stored`).  Defined structurally so
the kernel can evaluate it. -/
def lexLt : List Char → List Char → Bool
  | _, [] => false
  | [], _ :: _ => true
  | a :: as, b :: bs =>
    if a.toNat < b.toNat then true
    else if b.toNat < a.toNat then false
    else lexLt as bs

/-- Python string strict less-than. -/
def strLt (a b : String) : Bool := lexLt a.data b.data

/-- Python string less-or-equal. -/
def strLe (a b : String) : Bool := strLt a b || a == b

/-- `s.startswith(pre)` on char lists. -/
def startsWithL : List Char → List Char → Bool
  | _, [] => true
  | [], _ :: _ => false
  | a :: as, b :: bs => a == b && startsWithL as bs

/-- `s.startswith(pre)`. -/
def strStartsWith (s pre : String) : Bool := startsWithL s.data pre.data

/-- `s.endswith(suf)`. -/
def strEndsWith (s suf : String) : Bool := startsWithL s.data.reverse suf.data.reverse

/-- The canonical metrics extracted by the engine (`metrics` table keys). -/
inductive Metric where
  | revenue
  | grossProfit
  | netProfit
  | totalDebt
  | cash
deriving DecidableEq, Repr

/-- The dict key used for each canonical metric in a quarter record. -/
def Metric.key : Metric → String
  | .revenue => "Revenue"
  | .grossProfit => "Gross Profit"
  | .netProfit => "Net Profit"
  | .totalDebt => "Total Debt"
  | .cash => "Cash"

/-- Source concepts mapped to Revenue. -/
def revenueConcepts : List String :=
  ["Revenues", "Revenue", "SalesRevenueNet",
   "RevenueFromContractWithCustomerExcludingAssessedTax",
   "RevenueFromContractWithCustomer"]

/-- Source concepts mapped to Gross Profit. -/
def grossProfitConcepts : List String :=
  ["GrossProfit", "GrossMargin"]

/-- Source concepts mapped to Net Profit. -/
def netProfitConcepts : List String :=
  ["NetIncomeLoss", "ProfitLoss", "NetIncome",
   "NetIncomeLossAvailableToCommonStockholdersBasic"]

/-- Source concepts mapped to Total Debt. -/
def totalDebtConcepts : List String :=
  ["Debt", "DebtInstrumentCarryingAmount", "LongTermDebtAndCapitalLeaseObligations",
   "DebtAndCapitalLeaseObligations", "DebtAndLeaseObligations",
   "LongTermDebt", "LongTermDebtNoncurrent", "LongTermNotesPayable",
   "LongTermBorrowings", "LongTermLoansPayable",
   "ShortTermDebt", "ShortTermBorrowings", "NotesPayableCurrent",
   "LongTermDebtCurrent", "CurrentPortionOfLongTermDebt",
   "DebtCurrent", "ShortTermNotesPayable",
   "CurrentDebtAndCapitalLeaseObligation",
   "LongTermDebtAndCapitalLeaseObligationsNoncurrent"]

/-- Source concepts mapped to Cash. -/
def cashConcepts : List String :=
  ["CashAndCashEquivalentsAtCarryingValue", "Cash",
   "CashAndCashEquivalents", "CashAndDueFromBanks"]

/-- Short-term debt component concepts (`debt_components['short_term']`). -/
def shortTermConcepts : List String :=
  ["ShortTermDebt", "ShortTermBorrowings", "NotesPayableCurrent",
   "LongTermDebtCurrent", "CurrentPortionOfLongTermDebt",
   "DebtCurrent", "ShortTermNotesPayable",
   "CurrentDebtAndCapitalLeaseObligation"]

/-- Long-term debt component concepts (`debt_components['long_term']`). -/
def longTermConcepts : List String :=
  ["LongTermDebt", "LongTermDebtNoncurrent", "LongTermNotesPayable",
   "LongTermBorrowings", "LongTermLoansPayable",
   "LongTermDebtAndCapitalLeaseObligationsNoncurrent"]

/-- Which canonical metric a source concept reports (the `metrics` loop);
the concept lists are pairwise disjoint, so each concept has one metric. -/
def conceptMetric (c : String) : Option Metric :=
  if c ∈ revenueConcepts then some .revenue
  else if c ∈ grossProfitConcepts then some .grossProfit
  else if c ∈ netProfitConcepts then some .netProfit
  else if c ∈ totalDebtConcepts then some .totalDebt
  else if c ∈ cashConcepts then some .cash
  else none

/-- One reported data point from the XBRL facts, after JSON parsing.  The
`filed` date may be missing from a filing entry (`value.get('filed', '0')`). -/
structure RawFact where
  concept : String
  unit : String
  frame : String
  endD : String
  val : Int
  form : String
  filed : Option String
deriving DecidableEq, Repr

/-- The filing date used in comparisons, `'0'` when missing. -/
def RawFact.filedD (f : RawFact) : String := f.filed.getD "0"

/-- The key of the separately tracked debt component this concept feeds,
when it is a short- or long-term component concept. -/
def debtComponentKey (c : String) : Option String :=
  if c ∈ shortTermConcepts then some "short_term_debt"
  else if c ∈ longTermConcepts then some "long_term_debt"
  else none

/-- The conflict-resolving update for one (record, key) pair: store the value
(and its filing date under `<key>_filed`) when the key is absent or the new
filing date is strictly greater than the stored one. -/
def updateMetric (row : Row) (key : String) (v : Int) (filed : String) : Row :=
  if (rowGet row key).isNone ∨ strLt (getFiledD row (key ++ "_filed")) filed = true then
    rowSet (rowSet row key (Val.vi v)) (key ++ "_filed") (Val.vs filed)
  else row

/-- The record a quarterly fact starts from: the existing record for its
stripped frame, or a fresh one holding only the fact's end date. -/
def initRow (qd : Store) (f : RawFact) : Row :=
  match storeGet qd (stripI f.frame) with
  | some r => r
  | none => [("end_date", Val.vs f.endD)]

/-- The separate debt-component tracking applied to a record: for a Total
Debt fact whose concept is a short- or long-term component, the component
key gets the same most-recent-filing update. -/
def compRow (row : Row) (f : RawFact) (m : Metric) : Row :=
  if m = Metric.totalDebt then
    match debtComponentKey f.concept with
    | some ck => updateMetric row ck f.val f.filedD
    | none => row
  else row

/-- Processing of one quarterly fact into `quarterly_data`: strip the instant
suffix, create the record with its end date when new, track debt components
separately for Total Debt concepts, then apply the conflict rule. -/
def processQuarterly (qd : Store) (f : RawFact) (m : Metric) : Store :=
  storeSet qd (stripI f.frame)
    (updateMetric (compRow (initRow qd f) f m) m.key f.val f.filedD)

/-- Processing of one annual fact (six-character `CY` frame for an income
metric) into `annual_data`, with the same most-recent-filing rule. -/
def updateAnnual (ad : Store) (f : RawFact) (m : Metric) : Store :=
  let y := f.frame
  let row := (storeGet ad y).getD []
  if (rowGet row m.key).isNone ∨ strLt (getFiledD row (m.key ++ "_filed")) f.filedD = true then
    storeSet ad y
      (rowSet (rowSet (rowSet row m.key (Val.vi f.val))
        (m.key ++ "_filed") (Val.vs f.filedD)) "end_date" (Val.vs f.endD))
  else ad

/-- One step of the fact normalizer: filter by form and unit, resolve the
concept, route annual frames to `annual_data`, others to `quarterly_data`. -/
def processFact (st : Store × Store) (f : RawFact) : Store × Store :=
  if f.form = "10-Q" ∨ f.form = "10-K" then
    match conceptMetric f.concept with
    | some m =>
      if f.unit = "USD" ∨ f.unit = "shares" then
        if (m = Metric.revenue ∨ m = Metric.netProfit ∨ m = Metric.grossProfit)
            ∧ f.frame.length = 6 then
          (st.1, updateAnnual st.2 f m)
        else
          (processQuarterly st.1 f m, st.2)
      else st
    | none => st
  else st

/-- The fact normalizer over a whole fact sequence. -/
def processFacts (facts : List RawFact) : Store × Store :=
  facts.foldl processFact ([], [])

example : stripI "CY2023Q1I" = "CY2023Q1" := by decide
example : stripI "CY2023Q1" = "CY2023Q1" := by decide
example : conceptMetric "Revenues" = some Metric.revenue := by decide
example : conceptMetric "LongTermDebt" = some Metric.totalDebt := by decide
example : debtComponentKey "LongTermDebt" = some "long_term_debt" := by decide

/-- One parsed `EntityCommonStockSharesOutstanding` entry: frame and value. -/
structure ShareEntry where
  frame : String
  val : Int
deriving DecidableEq, Repr

/-- Dict assignment on the shares-outstanding frame map. -/
def smSet (l : List (String × Int)) (k : String) (v : Int) : List (String × Int) :=
  aSet l k v

/-- Building `shares_outstanding_data`: strip the instant suffix, keep only
quarterly `CY` frames (length over six), last entry per frame wins. -/
def sharesMapBuild (entries : List ShareEntry) : List (String × Int) :=
  entries.foldl (fun acc e =>
    let fr := stripI e.frame
    if 6 < fr.length ∧ strStartsWith fr "CY" = true then smSet acc fr e.val else acc) []

/-- The dict key of the shares-outstanding column. -/
def soKey : String := "Shares Outstanding"

/-- Merging shares-outstanding values into `quarterly_data`. -/
def mergeShares (qd : Store) (sm : List (String × Int)) : Store :=
  sm.foldl (fun acc p =>
    match storeGet acc p.1 with
    | some r => storeSet acc p.1 (rowSet r soKey (Val.vi p.2))
    | none => storeSet acc p.1 [(soKey, Val.vi p.2)]) qd

/-- The quarters of a year holding a value for the metric
(`quarters_with_metric`, recomputed from the live table). -/
def knownList (qd : Store) (y : String) (m : Metric) : List (String × Row) :=
  qd.filter (fun p => strStartsWith p.1 y && (getIntVal p.2 m.key).isSome)

/-- `sum(quarters_with_metric.values())`. -/
def knownSum (qd : Store) (y : String) (m : Metric) : Int :=
  ((knownList qd y m).map (fun p => (getIntVal p.2 m.key).getD 0)).sum

/-- `all_quarters` for a year. -/
def fourQ (y : String) : List String := [y ++ "Q1", y ++ "Q2", y ++ "Q3", y ++ "Q4"]

/-- Missing-quarter inference for one year and one metric: when exactly three
quarters hold the metric, the first of the four quarters not among them gets
the annual total minus the sum of the known three, flagged `_calculated`. -/
def inferMetricYear (qd : Store) (y : String) (av : Int) (m : Metric) : Store :=
  if (knownList qd y m).length = 3 then
    match (fourQ y).find? (fun q => !((knownList qd y m).any (fun p => p.1 == q))) with
    | some qm =>
      let r := (storeGet qd qm).getD []
      storeSet qd qm
        (rowSet (rowSet r m.key (Val.vi (av - knownSum qd y m)))
          (m.key ++ "_calculated") (Val.vb true))
    | none => qd
  else qd

/-- Missing-quarter inference for one year over the three income metrics, in
the source's loop order. -/
def inferYear (qd : Store) (y : String) (yrow : Row) : Store :=
  [Metric.revenue, Metric.netProfit, Metric.grossProfit].foldl
    (fun acc m =>
      match getIntVal yrow m.key with
      | some av => inferMetricYear acc y av m
      | none => acc) qd

/-- Missing-quarter inference over every year of `annual_data`. -/
def inferStage (qd : Store) (ad : Store) : Store :=
  ad.foldl (fun acc p => inferYear acc p.1 p.2) qd

/-- Debt aggregation for one record: when Total Debt is absent and at least
one component is truthy (nonzero), store their sum. -/
def debtStep (r : Row) : Row :=
  if (rowGet r "Total Debt").isSome then r
  else
    let sd := (getIntVal r "short_term_debt").getD 0
    let ld := (getIntVal r "long_term_debt").getD 0
    if sd ≠ 0 ∨ ld ≠ 0 then rowSet r "Total Debt" (Val.vi (sd + ld)) else r

/-- Debt aggregation over the whole table. -/
def debtStage (qd : Store) : Store := qd.map (fun p => (p.1, debtStep p.2))

/-- Shares value of a record, absent when the key is missing. -/
def getShares (r : Row) : Option Int := getIntVal r soKey

/-- Whether a record has the shares-outstanding key (column presence). -/
def hasSOKey (r : Row) : Bool := r.any (fun p => p.1 == soKey)

/-- Writing one filled column value back into a record. -/
def setShares (r : Row) : Option Int → Row
  | some n => rowSet r soKey (Val.vi n)
  | none => r

/-- Forward fill with the last seen value (`Series.ffill`). -/
def ffillAux : Option Int → List (Option Int) → List (Option Int)
  | _, [] => []
  | last, none :: xs => last :: ffillAux last xs
  | _, some v :: xs => some v :: ffillAux (some v) xs

/-- `Series.ffill`. -/
def ffill (xs : List (Option Int)) : List (Option Int) := ffillAux none xs

/-- `Series.bfill`: a forward fill on the reversed series. -/
def bfill (xs : List (Option Int)) : List (Option Int) := (ffill xs.reverse).reverse

/-- The two-pass series fill: forward fill then backward fill. -/
def seriesFill (xs : List (Option Int)) : List (Option Int) := bfill (ffill xs)

/-- Key-ascending order on table entries (`df.sort_index()`). -/
def kAsc (a b : String × Row) : Prop := strLe a.1 b.1 = true

instance : DecidableRel kAsc := fun a b => inferInstanceAs (Decidable (strLe a.1 b.1 = true))

/-- Writing a filled shares column back into the sorted table. -/
def writeBack : Store → List (Option Int) → Store
  | [], _ => []
  | _ :: _, [] => []
  | (k, r) :: t, v :: vs => (k, setShares r v) :: writeBack t vs

/-- The series-filler stage: when the shares column exists, sort the table by
period key and run the forward/backward fill over the column. -/
def fillStage (qd : Store) : Store :=
  if qd.any (fun p => hasSOKey p.2) then
    writeBack (List.insertionSort kAsc qd)
      (seriesFill ((List.insertionSort kAsc qd).map (fun p => getShares p.2)))
  else qd

/-- Keys kept by the cleanup pass: no `_filed` trackers, no `_calculated`
flags, no debt-component scratch keys. -/
def keepKey (k : String) : Bool :=
  !(strEndsWith k "_filed") && !(strEndsWith k "_calculated")
    && !(k == "short_term_debt") && !(k == "long_term_debt")

/-- Cleanup of one record. -/
def stripRow (r : Row) : Row := r.filter (fun p => keepKey p.1)

/-- Cleanup of the whole table. -/
def stripStage (qd : Store) : Store := qd.map (fun p => (p.1, stripRow p.2))

/-- Dropping annual rows: only period keys longer than six characters stay. -/
def annualFilter (qd : Store) : Store := qd.filter (fun p => decide (6 < p.1.length))

/-- The recorded end date of a record, when present. -/
def endDateOf (r : Row) : Option String := match rowGet r "end_date" with
  | some (Val.vs s) => some s
  | _ => none

/-- End-date-descending comparison with dateless records last
(`sort_values('end_date', ascending=False)`, `NaT` placed last). -/
def dDescB (a b : String × Row) : Bool :=
  match endDateOf a.2, endDateOf b.2 with
  | some x, some y => strLe y x
  | some _, none => true
  | none, some _ => false
  | none, none => true

/-- The end-date-descending order as a relation. -/
def dDesc (a b : String × Row) : Prop := dDescB a b = true

instance : DecidableRel dDesc := fun a b => inferInstanceAs (Decidable (dDescB a b = true))

/-- Key-descending order (`sort_index(ascending=False)`). -/
def kDesc (a b : String × Row) : Prop := strLe b.1 a.1 = true

instance : DecidableRel kDesc := fun a b => inferInstanceAs (Decidable (strLe b.1 a.1 = true))

/-- Dropping the end-date column after the final sort. -/
def dropEndDate (r : Row) : Row := r.filter (fun p => !(p.1 == "end_date"))

/-- Final ordering and truncation: sort by end date descending when the
column exists (dateless records last, column dropped afterwards), otherwise
by period key descending; keep the first twenty records. -/
def finalStage (qd : Store) : Store :=
  if qd.any (fun p => p.2.any (fun e => e.1 == "end_date")) then
    ((List.insertionSort dDesc qd).map (fun p => (p.1, dropEndDate p.2))).take 20
  else (List.insertionSort kDesc qd).take 20

/-- The whole reconciliation engine (`get_quarterly_data`): normalize facts,
merge shares, infer missing quarters, aggregate debt, fill the shares
series, strip scratch keys, drop annual rows, sort and truncate. -/
def get_quarterly_data (facts : List RawFact) (shares : List ShareEntry) : Store :=
  let st := processFacts facts
  let qd := mergeShares st.1 (sharesMapBuild shares)
  let qd := inferStage qd st.2
  let qd := debtStage qd
  let qd := fillStage qd
  let qd := stripStage qd
  let qd := annualFilter qd
  finalStage qd

/-- The share-price alignment of `add_share_prices`: exact date match first,
otherwise the last history entry at a date at most the quarter end date. -/
def priceLookup (hist : List (String × Int)) (endDate : String) : Option Int :=
  match hist.find? (fun p => p.1 == endDate) with
  | some p => some p.2
  | none =>
    match (hist.filter (fun p => strLe p.1 endDate)).getLast? with
    | some p => some p.2
    | none => none

/-- The calendar end date of a quarter key, as computed by
`add_share_prices` (Q1 to Mar 31, Q2 to Jun 30, Q3 to Sep 30, Q4 to Dec 31). -/
def calQuarterEnd (k : String) : Option String :=
  if strStartsWith k "CY" = true then
    let y := String.mk ((k.data.drop 2).take 4)
    let q := k.data.getD 7 ' '
    let md := if q = '1' then "-03-31"
      else if q = '2' then "-06-30"
      else if q = '3' then "-09-30"
      else "-12-31"
    some (y ++ md)
  else none

/-- The growth classifier of `display_metrics`: the tier of a
period-over-period growth percentage (absent growth gets no tier). -/
def growth_tier (g : Option ℚ) : String :=
  match g with
  | none => "none"
  | some v =>
    if 15 ≤ v then "high"
    else if 10 ≤ v then "medium"
    else if 5 ≤ v then "low"
    else "none"

example : get_quarterly_data [] [] = [] := by rfl
example : growth_tier (some 15) = "high" := by norm_num [growth_tier]

theorem aGet_cons {β : Type} (k0 : String) (v0 : β) (t : List (String × β)) (k : String) :
    aGet ((k0, v0) :: t) k = if (k0 == k) = true then some v0 else aGet t k := by
  by_cases h : (k0 == k) = true
  · simp [aGet, List.find?_cons_of_pos _ h, h]
  · simp [aGet, List.find?_cons_of_neg _ h, h]

theorem aSet_cons_eq {β : Type} (k0 : String) (v0 : β) (t : List (String × β)) (k : String)
    (v : β) (h : (k0 == k) = true) :
    aSet ((k0, v0) :: t) k v = (k, v) :: t.map (fun p => if p.1 == k then (k, v) else p) := by
  have hk : k0 = k := by simpa using h
  subst hk
  simp [aSet, List.any_cons]

theorem aSet_cons_ne {β : Type} (k0 : String) (v0 : β) (t : List (String × β)) (k : String)
    (v : β) (h : (k0 == k) = false) :
    aSet ((k0, v0) :: t) k v = (k0, v0) :: aSet t k v := by
  have hne : k0 ≠ k := by simpa using h
  by_cases ht : t.any (fun p => p.1 == k) = true
  · simp [aSet, List.any_cons, h, ht, hne]
  · simp [aSet, List.any_cons, h, ht, hne]

theorem aGet_aSet_self {β : Type} (l : List (String × β)) (k : String) (v : β) :
    aGet (aSet l k v) k = some v := by
  induction l with
  | nil => simp [aSet, aGet_cons]
  | cons p t ih =>
    obtain ⟨k0, v0⟩ := p
    by_cases h : (k0 == k) = true
    · rw [aSet_cons_eq _ _ _ _ _ h, aGet_cons]
      simp
    · rw [aSet_cons_ne _ _ _ _ _ (Bool.eq_false_iff.mpr h), aGet_cons, if_neg (by simp_all)]
      exact ih

theorem aGet_mapUpd_ne {β : Type} (t : List (String × β)) (k k' : String) (v : β)
    (h : k' ≠ k) :
    aGet (t.map (fun p => if p.1 == k then (k, v) else p)) k' = aGet t k' := by
  induction t with
  | nil => rfl
  | cons p t ih =>
    obtain ⟨x, w⟩ := p
    by_cases hx : (x == k) = true
    · have hxk : x = k := by simpa using hx
      subst hxk
      simp only [List.map_cons, if_pos hx]
      rw [aGet_cons, aGet_cons, if_neg (by simp [Ne.symm h]), if_neg (by simp [Ne.symm h])]
      exact ih
    · simp only [List.map_cons, if_neg hx]
      rw [aGet_cons, aGet_cons]
      split
      · rfl
      · exact ih

theorem aGet_aSet_ne {β : Type} (l : List (String × β)) (k k' : String) (v : β)
    (h : k' ≠ k) :
    aGet (aSet l k v) k' = aGet l k' := by
  induction l with
  | nil =>
    rw [show aSet ([] : List (String × β)) k v = [(k, v)] from rfl]
    rw [aGet_cons, if_neg (by simp [Ne.symm h])]
  | cons p t ih =>
    obtain ⟨k0, v0⟩ := p
    by_cases h0 : (k0 == k) = true
    · have hk0 : k0 = k := by simpa using h0
      subst hk0
      rw [aSet_cons_eq _ _ _ _ _ h0, aGet_cons, aGet_cons,
        if_neg (by simp [Ne.symm h]), if_neg (by simp [Ne.symm h])]
      exact aGet_mapUpd_ne t k0 k' v h
    · rw [aSet_cons_ne _ _ _ _ _ (Bool.eq_false_iff.mpr h0), aGet_cons, aGet_cons]
      split
      · rfl
      · exact ih

theorem aGet_of_mem_nodup {β : Type} {l : List (String × β)} {k : String} {v : β}
    (hn : (l.map Prod.fst).Nodup) (hm : (k, v) ∈ l) : aGet l k = some v := by
  induction l with
  | nil => cases hm
  | cons p t ih =>
    obtain ⟨k0, v0⟩ := p
    rcases List.mem_cons.mp hm with h | h
    · cases h
      rw [aGet_cons, if_pos (by simp)]
    · have hk0 : k0 ≠ k := by
        intro hkk
        subst hkk
        have : k0 ∈ t.map Prod.fst := List.mem_map.mpr ⟨(k0, v), h, rfl⟩
        exact (List.nodup_cons.mp hn).1 this
      rw [aGet_cons, if_neg (by simp [hk0])]
      exact ih (List.nodup_cons.mp hn).2 h

theorem string_ne_append_filed (k : String) : k ≠ k ++ "_filed" := by
  intro h
  have hl := congrArg String.length h
  rw [String.length_append] at hl
  have h6 : "_filed".length = 6 := rfl
  rw [h6] at hl
  omega

theorem updateMetric_get_other (row : Row) (k k' : String) (v : Int) (d : String)
    (h1 : k' ≠ k) (h2 : k' ≠ k ++ "_filed") :
    rowGet (updateMetric row k v d) k' = rowGet row k' := by
  unfold updateMetric
  split
  · simp only [rowGet, rowSet]
    rw [aGet_aSet_ne _ _ _ _ h2, aGet_aSet_ne _ _ _ _ h1]
  · rfl

theorem updateMetric_get_self (row : Row) (k : String) (v : Int) (d : String) :
    rowGet (updateMetric row k v d) k =
      if (rowGet row k).isNone ∨ strLt (getFiledD row (k ++ "_filed")) d = true then
        some (Val.vi v)
      else rowGet row k := by
  unfold updateMetric
  split
  · simp only [rowGet, rowSet]
    rw [aGet_aSet_ne _ _ _ _ (string_ne_append_filed k), aGet_aSet_self]
  · rfl

theorem updateMetric_filed_self (row : Row) (k : String) (v : Int) (d : String) :
    getFiledD (updateMetric row k v d) (k ++ "_filed") =
      if (rowGet row k).isNone ∨ strLt (getFiledD row (k ++ "_filed")) d = true then d
      else getFiledD row (k ++ "_filed") := by
  unfold updateMetric
  split
  · simp only [getFiledD, rowGet, rowSet]
    rw [aGet_aSet_self]
  · rfl

theorem rowGet_rowSet_self (r : Row) (k : String) (v : Val) :
    rowGet (rowSet r k v) k = some v := aGet_aSet_self r k v

theorem rowGet_rowSet_ne (r : Row) (k k' : String) (v : Val) (h : k' ≠ k) :
    rowGet (rowSet r k v) k' = rowGet r k' := aGet_aSet_ne r k k' v h

theorem storeGet_storeSet_self (s : Store) (k : String) (r : Row) :
    storeGet (storeSet s k r) k = some r := aGet_aSet_self s k r

theorem storeGet_storeSet_ne (s : Store) (k k' : String) (r : Row) (h : k' ≠ k) :
    storeGet (storeSet s k r) k' = storeGet s k' := aGet_aSet_ne s k k' r h

theorem debtStep_eq_of_absent (r : Row) (habs : rowGet r "Total Debt" = none) :
    debtStep r =
      if (getIntVal r "short_term_debt").getD 0 ≠ 0 ∨ (getIntVal r "long_term_debt").getD 0 ≠ 0
      then rowSet r "Total Debt"
        (Val.vi ((getIntVal r "short_term_debt").getD 0 + (getIntVal r "long_term_debt").getD 0))
      else r := by
  unfold debtStep
  rw [habs]
  rfl

/-- C4 (amended): for a record lacking Total Debt, the debt aggregator sets
Total Debt to short-term plus long-term debt (an absent component treated as
zero) exactly when at least one component is present and nonzero; when both
components are absent or zero, Total Debt remains absent. -/
theorem debt_aggregation_amended (r : Row)
    (habs : rowGet r "Total Debt" = none) :
    (((getIntVal r "short_term_debt").getD 0 ≠ 0 ∨ (getIntVal r "long_term_debt").getD 0 ≠ 0) →
      getIntVal (debtStep r) "Total Debt" =
        some ((getIntVal r "short_term_debt").getD 0 + (getIntVal r "long_term_debt").getD 0))
    ∧ ((getIntVal r "short_term_debt").getD 0 = 0 ∧ (getIntVal r "long_term_debt").getD 0 = 0 →
      rowGet (debtStep r) "Total Debt" = none) := by
  constructor
  · intro hnz
    rw [debtStep_eq_of_absent r habs, if_pos hnz]
    simp only [getIntVal, rowGet_rowSet_self]
  · rintro ⟨h1, h2⟩
    rw [debtStep_eq_of_absent r habs, if_neg (by simp [h1, h2])]
    exact habs

/-- Witness for the C4 theorem: short-term 5 and long-term 7 aggregate to a
Total Debt of 12. -/
theorem debt_aggregation_amended_witness :
    getIntVal (debtStep [("short_term_debt", Val.vi 5), ("long_term_debt", Val.vi 7)])
      "Total Debt" = some 12 := by
  have h := (debt_aggregation_amended
    [("short_term_debt", Val.vi 5), ("long_term_debt", Val.vi 7)] (by decide)).1 (by decide)
  exact h.trans (by decide)

/-- C4 counterexample: a record holding short-term debt 0 (present) and no
Total Debt; the claim requires Total Debt to become 0 + 0 = 0, but the code
leaves it absent because a zero component is falsy. -/
theorem debt_aggregation_counterexample :
    rowGet [("short_term_debt", Val.vi 0)] "short_term_debt" = some (Val.vi 0)
      ∧ rowGet [("short_term_debt", Val.vi 0)] "Total Debt" = none
      ∧ rowGet (debtStep [("short_term_debt", Val.vi 0)]) "Total Debt" = none := by
  exact ⟨by decide, by decide, by decide⟩

/-- C8: the growth classifier assigns tier high exactly when growth is at
least 15, medium exactly on [10, 15), low exactly on [5, 10), and none
otherwise (absent growth included); with the boundary cases 15, 14.99, 5 and
4.99. -/
theorem growth_tiering (g : Option ℚ) :
    (growth_tier g = "high" ↔ ∃ v, g = some v ∧ 15 ≤ v)
    ∧ (growth_tier g = "medium" ↔ ∃ v, g = some v ∧ 10 ≤ v ∧ v < 15)
    ∧ (growth_tier g = "low" ↔ ∃ v, g = some v ∧ 5 ≤ v ∧ v < 10)
    ∧ (growth_tier g = "none" ↔ g = none ∨ ∃ v, g = some v ∧ v < 5)
    ∧ growth_tier (some 15) = "high"
    ∧ growth_tier (some (1499 / 100)) = "medium"
    ∧ growth_tier (some 5) = "low"
    ∧ growth_tier (some (499 / 100)) = "none" := by
  refine ⟨?_, ?_, ?_, ?_, by norm_num [growth_tier], by norm_num [growth_tier],
    by norm_num [growth_tier], by norm_num [growth_tier]⟩
  · cases g with
    | none =>
      simp only [growth_tier]
      constructor
      · intro h
        exact absurd h (by decide)
      · rintro ⟨v, hv, -⟩
        cases hv
    | some v =>
      simp only [growth_tier]
      split_ifs with h1 h2 h3 <;> constructor
      · intro _
        exact ⟨v, rfl, h1⟩
      · intro _
        rfl
      · intro h
        exact absurd h (by decide)
      · rintro ⟨w, hw, hge⟩
        cases hw
        exact absurd hge h1
      · intro h
        exact absurd h (by decide)
      · rintro ⟨w, hw, hge⟩
        cases hw
        exact absurd hge h1
      · intro h
        exact absurd h (by decide)
      · rintro ⟨w, hw, hge⟩
        cases hw
        exact absurd hge h1
  · cases g with
    | none =>
      simp only [growth_tier]
      constructor
      · intro h
        exact absurd h (by decide)
      · rintro ⟨v, hv, -⟩
        cases hv
    | some v =>
      simp only [growth_tier]
      split_ifs with h1 h2 h3 <;> constructor
      · intro h
        exact absurd h (by decide)
      · rintro ⟨w, hw, -, hlt⟩
        cases hw
        exact absurd h1 (by intro hc; linarith)
      · intro _
        exact ⟨v, rfl, h2, by linarith⟩
      · intro _
        rfl
      · intro h
        exact absurd h (by decide)
      · rintro ⟨w, hw, hge, -⟩
        cases hw
        exact absurd hge h2
      · intro h
        exact absurd h (by decide)
      · rintro ⟨w, hw, hge, -⟩
        cases hw
        exact absurd hge h2
  · cases g with
    | none =>
      simp only [growth_tier]
      constructor
      · intro h
        exact absurd h (by decide)
      · rintro ⟨v, hv, -⟩
        cases hv
    | some v =>
      simp only [growth_tier]
      split_ifs with h1 h2 h3 <;> constructor
      · intro h
        exact absurd h (by decide)
      · rintro ⟨w, hw, -, hlt⟩
        cases hw
        linarith
      · intro h
        exact absurd h (by decide)
      · rintro ⟨w, hw, -, hlt⟩
        cases hw
        linarith
      · intro _
        exact ⟨v, rfl, h3, by linarith⟩
      · intro _
        rfl
      · intro h
        exact absurd h (by decide)
      · rintro ⟨w, hw, hge, -⟩
        cases hw
        exact absurd hge h3
  · cases g with
    | none =>
      constructor
      · intro _
        exact Or.inl rfl
      · intro _
        rfl
    | some v =>
      simp only [growth_tier]
      split_ifs with h1 h2 h3 <;> constructor
      · intro h
        exact absurd h (by decide)
      · rintro (h | ⟨w, hw, hlt⟩)
        · cases h
        · cases hw
          linarith
      · intro h
        exact absurd h (by decide)
      · rintro (h | ⟨w, hw, hlt⟩)
        · cases h
        · cases hw
          linarith
      · intro h
        exact absurd h (by decide)
      · rintro (h | ⟨w, hw, hlt⟩)
        · cases h
        · cases hw
          linarith
      · intro _
        exact Or.inr ⟨v, rfl, by linarith⟩
      · intro _
        rfl

theorem char_toNat_inj {a b : Char} (h : a.toNat = b.toNat) : a = b := by
  have hv : a.val = b.val := by
    unfold Char.toNat at h
    exact UInt32.toNat.inj h
  exact Char.ext hv

theorem lexLt_irrefl : ∀ l : List Char, lexLt l l = false := by
  intro l
  induction l with
  | nil => rfl
  | cons a t ih => simp [lexLt, ih]

theorem lexLt_trans : ∀ {l1 l2 l3 : List Char},
    lexLt l1 l2 = true → lexLt l2 l3 = true → lexLt l1 l3 = true := by
  intro l1
  induction l1 with
  | nil =>
    intro l2 l3 h12 h23
    cases l2 with
    | nil => cases h12
    | cons b bs =>
      cases l3 with
      | nil => cases h23
      | cons c cs => rfl
  | cons a as ih =>
    intro l2 l3 h12 h23
    cases l2 with
    | nil => cases h12
    | cons b bs =>
      cases l3 with
      | nil => cases h23
      | cons c cs =>
        simp only [lexLt] at h12 h23 ⊢
        split_ifs at h12 h23 ⊢ with g1 g2 g3 g4 g5 g6 <;>
          first
          | rfl
          | omega
          | (exact ih h12 h23)

theorem lexLt_trichotomy : ∀ l1 l2 : List Char,
    lexLt l1 l2 = true ∨ l1 = l2 ∨ lexLt l2 l1 = true := by
  intro l1
  induction l1 with
  | nil =>
    intro l2
    cases l2 with
    | nil => exact Or.inr (Or.inl rfl)
    | cons b bs => exact Or.inl rfl
  | cons a as ih =>
    intro l2
    cases l2 with
    | nil => exact Or.inr (Or.inr rfl)
    | cons b bs =>
      rcases Nat.lt_trichotomy a.toNat b.toNat with hlt | heq | hgt
      · exact Or.inl (by simp [lexLt, hlt])
      · have hab : a = b := char_toNat_inj heq
        subst hab
        rcases ih bs with h | h | h
        · exact Or.inl (by simp [lexLt, h])
        · exact Or.inr (Or.inl (by rw [h]))
        · exact Or.inr (Or.inr (by simp [lexLt, h]))
      · exact Or.inr (Or.inr (by simp [lexLt, hgt]))

theorem string_data_inj {a b : String} (h : a.data = b.data) : a = b := by
  cases a
  cases b
  exact congrArg String.mk h

theorem strLt_irrefl (a : String) : strLt a a = false := lexLt_irrefl a.data

theorem strLt_trans {a b c : String} (h1 : strLt a b = true) (h2 : strLt b c = true) :
    strLt a c = true := lexLt_trans h1 h2

theorem strLt_asymm {a b : String} (h : strLt a b = true) : strLt b a = false := by
  cases hc : strLt b a
  · rfl
  · have := strLt_trans h hc
    rw [strLt_irrefl a] at this
    cases this

theorem strLt_trichotomy (a b : String) :
    strLt a b = true ∨ a = b ∨ strLt b a = true := by
  rcases lexLt_trichotomy a.data b.data with h | h | h
  · exact Or.inl h
  · exact Or.inr (Or.inl (string_data_inj h))
  · exact Or.inr (Or.inr h)

theorem strLe_refl (a : String) : strLe a a = true := by
  simp [strLe]

theorem strLe_of_eq {a b : String} (h : a = b) : strLe a b = true := by
  subst h
  exact strLe_refl a

theorem strLe_of_strLt {a b : String} (h : strLt a b = true) : strLe a b = true := by
  simp [strLe, h]

theorem strLe_iff {a b : String} : strLe a b = true ↔ strLt a b = true ∨ a = b := by
  simp [strLe]

theorem strLe_trans {a b c : String} (h1 : strLe a b = true) (h2 : strLe b c = true) :
    strLe a c = true := by
  rcases strLe_iff.mp h1 with h1 | h1
  · rcases strLe_iff.mp h2 with h2 | h2
    · exact strLe_of_strLt (strLt_trans h1 h2)
    · subst h2
      exact strLe_of_strLt h1
  · subst h1
    exact h2

theorem strLe_antisymm {a b : String} (h1 : strLe a b = true) (h2 : strLe b a = true) :
    a = b := by
  rcases strLe_iff.mp h1 with h1 | h1
  · rcases strLe_iff.mp h2 with h2 | h2
    · have := strLt_asymm h1
      rw [h2] at this
      cases this
    · exact h2.symm
  · exact h1

theorem strLe_total (a b : String) : strLe a b = true ∨ strLe b a = true := by
  rcases strLt_trichotomy a b with h | h | h
  · exact Or.inl (strLe_of_strLt h)
  · exact Or.inl (strLe_of_eq h)
  · exact Or.inr (strLe_of_strLt h)

theorem strLt_of_strLe_ne {a b : String} (h1 : strLe a b = true) (h2 : a ≠ b) :
    strLt a b = true := by
  rcases strLe_iff.mp h1 with h | h
  · exact h
  · exact absurd h h2

theorem pairwise_key_unique {β : Type} {l : List (String × β)}
    (hs : l.Pairwise (fun a b => strLt a.1 b.1 = true)) :
    ∀ p ∈ l, ∀ q ∈ l, p.1 = q.1 → p = q := by
  induction l with
  | nil =>
    intro p hp
    cases hp
  | cons a t ih =>
    intro p hp q hq hpq
    rcases List.mem_cons.mp hp with rfl | hp2 <;> rcases List.mem_cons.mp hq with rfl | hq2
    · rfl
    · have hlt := (List.pairwise_cons.mp hs).1 q hq2
      rw [hpq, strLt_irrefl] at hlt
      cases hlt
    · have hlt := (List.pairwise_cons.mp hs).1 p hp2
      rw [hpq, strLt_irrefl] at hlt
      cases hlt
    · exact ih (List.pairwise_cons.mp hs).2 p hp2 q hq2 hpq

theorem pairwise_getLast?_max {α : Type} {R : α → α → Prop} :
    ∀ {l : List α} {p : α}, l.Pairwise R → l.getLast? = some p → ∀ q ∈ l, q = p ∨ R q p := by
  intro l
  induction l with
  | nil =>
    intro p _ h
    cases h
  | cons a t ih =>
    intro p hp hlast q hq
    cases t with
    | nil =>
      have ha : a = p := by simpa [List.getLast?] using hlast
      subst ha
      rcases List.mem_cons.mp hq with rfl | h2
      · exact Or.inl rfl
      · cases h2
    | cons b t2 =>
      have hlast2 : (b :: t2).getLast? = some p := by
        rw [List.getLast?_cons_cons] at hlast
        exact hlast
      rcases List.mem_cons.mp hq with rfl | hq2
      · have hpmem : p ∈ b :: t2 := List.mem_of_getLast?_eq_some hlast2
        exact Or.inr ((List.pairwise_cons.mp hp).1 p hpmem)
      · exact ih (List.pairwise_cons.mp hp).2 hlast2 q hq2

/-- C6: against a daily price series with strictly increasing dates, the
share-price alignment returns the exact-date price when the end date trades;
otherwise it returns the price of the greatest trading date at most the end
date — strictly before it when the end date is absent, never after — and
returns nothing when no trading date at or before the end date exists. -/
theorem market_alignment (hist : List (String × Int)) (endDate : String)
    (hs : hist.Pairwise (fun a b => strLt a.1 b.1 = true)) :
    (∀ v, (endDate, v) ∈ hist → priceLookup hist endDate = some v)
    ∧ (∀ v, priceLookup hist endDate = some v →
        ∃ p ∈ hist, p.2 = v ∧ strLe p.1 endDate = true
          ∧ (∀ q ∈ hist, strLe q.1 endDate = true → strLe q.1 p.1 = true)
          ∧ ((∀ q ∈ hist, q.1 ≠ endDate) → strLt p.1 endDate = true))
    ∧ ((∀ p ∈ hist, ¬ strLe p.1 endDate = true) → priceLookup hist endDate = none) := by
  refine ⟨?_, ?_, ?_⟩
  · intro v hv
    unfold priceLookup
    cases hfind : hist.find? (fun p => p.1 == endDate) with
    | none =>
      have hall := List.find?_eq_none.mp hfind (endDate, v) hv
      simp at hall
    | some q =>
      have hq1 : q.1 = endDate := by simpa using List.find?_some hfind
      have hqm : q ∈ hist := List.mem_of_find?_eq_some hfind
      have : q = (endDate, v) := pairwise_key_unique hs q hqm (endDate, v) hv hq1
      rw [this]
  · intro v hv
    unfold priceLookup at hv
    cases hfind : hist.find? (fun p => p.1 == endDate) with
    | some q =>
      rw [hfind] at hv
      have hq2 : q.2 = v := by simpa using hv
      have hq1 : q.1 = endDate := by simpa using List.find?_some hfind
      have hqm : q ∈ hist := List.mem_of_find?_eq_some hfind
      refine ⟨q, hqm, hq2, strLe_of_eq hq1, ?_, ?_⟩
      · intro q' _ hle
        rw [hq1]
        exact hle
      · intro hnone
        exact absurd hq1 (hnone q hqm)
    | none =>
      rw [hfind] at hv
      cases hlast : (hist.filter (fun p => strLe p.1 endDate)).getLast? with
      | none =>
        rw [hlast] at hv
        cases hv
      | some q =>
        rw [hlast] at hv
        have hq2 : q.2 = v := by simpa using hv
        have hqfil : q ∈ hist.filter (fun p => strLe p.1 endDate) :=
          List.mem_of_getLast?_eq_some hlast
        have hqm : q ∈ hist := List.mem_of_mem_filter hqfil
        have hqle : strLe q.1 endDate = true := (List.mem_filter.mp hqfil).2
        have hqne : q.1 ≠ endDate := by
          intro hc
          have := List.find?_eq_none.mp hfind q hqm
          simp [hc] at this
        refine ⟨q, hqm, hq2, hqle, ?_, fun _ => strLt_of_strLe_ne hqle hqne⟩
        intro q' hq' hle
        have hq'fil : q' ∈ hist.filter (fun p => strLe p.1 endDate) :=
          List.mem_filter.mpr ⟨hq', hle⟩
        rcases pairwise_getLast?_max (hs.filter _) hlast q' hq'fil with rfl | hlt
        · exact strLe_refl _
        · exact strLe_of_strLt hlt
  · intro h
    have hfind : hist.find? (fun p => p.1 == endDate) = none := by
      rw [List.find?_eq_none]
      intro x hx hbe
      have hx1 : x.1 = endDate := by simpa using hbe
      exact h x hx (strLe_of_eq hx1)
    have hfil : hist.filter (fun p => strLe p.1 endDate) = [] := by
      rw [List.filter_eq_nil_iff]
      intro x hx
      simpa using h x hx
    unfold priceLookup
    rw [hfind, hfil]
    rfl

/-- Witness for the C6 theorem: a two-day series; a quarter ending on a
non-trading day gets the most recent prior trading day's price, and the price
at an exact trading date is returned as is. -/
theorem market_alignment_witness :
    priceLookup [("2023-12-28", 10), ("2023-12-29", 11)] "2023-12-31" = some 11
      ∧ priceLookup [("2023-12-28", 10), ("2023-12-29", 11)] "2023-12-28" = some 10 := by
  constructor
  · decide
  · exact (market_alignment [("2023-12-28", 10), ("2023-12-29", 11)] "2023-12-28"
      (by decide)).1 10 (by decide)

theorem getFiledD_congr {r r' : Row} {k : String} (h : rowGet r k = rowGet r' k) :
    getFiledD r k = getFiledD r' k := by
  unfold getFiledD
  rw [h]

theorem debtComp_cases {c ck : String} (h : debtComponentKey c = some ck) :
    ck = "short_term_debt" ∨ ck = "long_term_debt" := by
  unfold debtComponentKey at h
  split_ifs at h
  · exact Or.inl (by injection h with h; exact h.symm)
  · exact Or.inr (by injection h with h; exact h.symm)

theorem compRow_get (row : Row) (f : RawFact) (m : Metric) (k' : String)
    (hk : k' = m.key ∨ k' = m.key ++ "_filed") :
    rowGet (compRow row f m) k' = rowGet row k' := by
  unfold compRow
  split
  · rename_i hm
    cases hck : debtComponentKey f.concept with
    | none => rfl
    | some ck =>
      rcases debtComp_cases hck with rfl | rfl <;>
        (apply updateMetric_get_other <;> (subst hm; rcases hk with rfl | rfl <;> decide))
  · rfl

theorem initRow_mkey (qd : Store) (f : RawFact) (m : Metric)
    (hinit : rowGet ((storeGet qd (stripI f.frame)).getD []) m.key = none) :
    rowGet (initRow qd f) m.key = none := by
  unfold initRow
  cases h : storeGet qd (stripI f.frame) with
  | some r =>
    rw [h] at hinit
    simpa using hinit
  | none =>
    have hne : ("end_date" == m.key) = false := by cases m <;> decide
    show aGet [("end_date", Val.vs f.endD)] m.key = none
    rw [aGet_cons, if_neg (by simp [hne])]
    rfl

theorem processQuarterly_store (qd : Store) (f : RawFact) (m : Metric) :
    storeGet (processQuarterly qd f m) (stripI f.frame) =
      some (updateMetric (compRow (initRow qd f) f m) m.key f.val f.filedD) := by
  unfold processQuarterly
  exact storeGet_storeSet_self _ _ _

theorem processQuarterly_two (qd : Store) (f g : RawFact) (m : Metric)
    (hq : stripI g.frame = stripI f.frame)
    (hinit : rowGet ((storeGet qd (stripI f.frame)).getD []) m.key = none) :
    rowGet ((storeGet (processQuarterly (processQuarterly qd f m) g m)
        (stripI f.frame)).getD []) m.key =
      some (Val.vi (if strLt f.filedD g.filedD = true then g.val else f.val)) := by
  have h0 : rowGet (compRow (initRow qd f) f m) m.key = none := by
    rw [compRow_get _ _ _ _ (Or.inl rfl)]
    exact initRow_mkey qd f m hinit
  have hcond1 : (rowGet (compRow (initRow qd f) f m) m.key).isNone = true
      ∨ strLt (getFiledD (compRow (initRow qd f) f m) (m.key ++ "_filed")) f.filedD = true := by
    rw [h0]
    exact Or.inl rfl
  have hrowA := updateMetric_get_self (compRow (initRow qd f) f m) m.key f.val f.filedD
  rw [if_pos hcond1] at hrowA
  have hfiledA := updateMetric_filed_self (compRow (initRow qd f) f m) m.key f.val f.filedD
  rw [if_pos hcond1] at hfiledA
  have hstore1 := processQuarterly_store qd f m
  have hinitg : initRow (processQuarterly qd f m) g =
      updateMetric (compRow (initRow qd f) f m) m.key f.val f.filedD := by
    unfold initRow
    rw [hq, hstore1]
    rfl
  have hstore2 := processQuarterly_store (processQuarterly qd f m) g m
  rw [hq] at hstore2
  rw [hstore2, Option.getD_some, updateMetric_get_self,
    compRow_get _ _ _ _ (Or.inl rfl),
    getFiledD_congr (compRow_get _ _ _ _ (Or.inr rfl)), hinitg, hrowA, hfiledA]
  cases hlt : strLt f.filedD g.filedD with
  | true => simp
  | false => simp

theorem processFact_quarterly (st : Store × Store) (f : RawFact) (m : Metric)
    (hc : conceptMetric f.concept = some m)
    (hf : f.form = "10-Q" ∨ f.form = "10-K")
    (hu : f.unit = "USD" ∨ f.unit = "shares")
    (hna : ¬((m = Metric.revenue ∨ m = Metric.netProfit ∨ m = Metric.grossProfit)
      ∧ f.frame.length = 6)) :
    processFact st f = (processQuarterly st.1 f m, st.2) := by
  unfold processFact
  rw [if_pos hf]
  simp only [hc]
  rw [if_pos hu, if_neg hna]

/-- C2: for two facts that resolve to the same stripped period key and the
same canonical metric, the surviving value is the one with the
lexicographically greater filing date, whichever order the two facts are
processed in; when the filing dates are equal the first-processed value
survives. -/
theorem conflict_resolution (f g : RawFact) (qd ad : Store) (m : Metric)
    (hfc : conceptMetric f.concept = some m) (hgc : conceptMetric g.concept = some m)
    (hff : f.form = "10-Q" ∨ f.form = "10-K") (hgf : g.form = "10-Q" ∨ g.form = "10-K")
    (hfu : f.unit = "USD" ∨ f.unit = "shares") (hgu : g.unit = "USD" ∨ g.unit = "shares")
    (hfa : ¬((m = Metric.revenue ∨ m = Metric.netProfit ∨ m = Metric.grossProfit)
      ∧ f.frame.length = 6))
    (hga : ¬((m = Metric.revenue ∨ m = Metric.netProfit ∨ m = Metric.grossProfit)
      ∧ g.frame.length = 6))
    (hq : stripI g.frame = stripI f.frame)
    (hinit : rowGet ((storeGet qd (stripI f.frame)).getD []) m.key = none) :
    (strLt f.filedD g.filedD = true →
      rowGet ((storeGet (processFact (processFact (qd, ad) f) g).1
          (stripI f.frame)).getD []) m.key = some (Val.vi g.val)
        ∧ rowGet ((storeGet (processFact (processFact (qd, ad) g) f).1
          (stripI f.frame)).getD []) m.key = some (Val.vi g.val))
    ∧ (strLt g.filedD f.filedD = true →
      rowGet ((storeGet (processFact (processFact (qd, ad) f) g).1
          (stripI f.frame)).getD []) m.key = some (Val.vi f.val)
        ∧ rowGet ((storeGet (processFact (processFact (qd, ad) g) f).1
          (stripI f.frame)).getD []) m.key = some (Val.vi f.val))
    ∧ (f.filedD = g.filedD →
      rowGet ((storeGet (processFact (processFact (qd, ad) f) g).1
          (stripI f.frame)).getD []) m.key = some (Val.vi f.val)
        ∧ rowGet ((storeGet (processFact (processFact (qd, ad) g) f).1
          (stripI f.frame)).getD []) m.key = some (Val.vi g.val)) := by
  have hstep : ∀ st : Store × Store, processFact st f = (processQuarterly st.1 f m, st.2) :=
    fun st => processFact_quarterly st f m hfc hff hfu hfa
  have hstepg : ∀ st : Store × Store, processFact st g = (processQuarterly st.1 g m, st.2) :=
    fun st => processFact_quarterly st g m hgc hgf hgu hga
  have e1 : (processFact (processFact (qd, ad) f) g).1 =
      processQuarterly (processQuarterly qd f m) g m := by
    rw [hstep, hstepg]
  have e2 : (processFact (processFact (qd, ad) g) f).1 =
      processQuarterly (processQuarterly qd g m) f m := by
    rw [hstepg, hstep]
  have hFG := processQuarterly_two qd f g m hq hinit
  have hGF := processQuarterly_two qd g f m hq.symm (by rw [hq]; exact hinit)
  rw [hq] at hGF
  refine ⟨?_, ?_, ?_⟩
  · intro hlt
    constructor
    · rw [e1, hFG, if_pos hlt]
    · rw [e2, hGF]
      simp [strLt_asymm hlt]
  · intro hlt
    constructor
    · rw [e1, hFG]
      simp [strLt_asymm hlt]
    · rw [e2, hGF, if_pos hlt]
  · intro heq
    constructor
    · rw [e1, hFG]
      simp [heq, strLt_irrefl]
    · rw [e2, hGF]
      simp [heq, strLt_irrefl]

/-- Witness for the C2 theorem: a Q1 revenue fact filed 2023-04-01 and a
restatement filed 2023-05-01 reported on the instant frame under another
revenue concept; both processing orders keep the restated value 12. -/
theorem conflict_resolution_witness :
    rowGet ((storeGet (processFact (processFact (([] : Store), ([] : Store))
          { concept := "Revenues", unit := "USD", frame := "CY2023Q1",
            endD := "2023-03-31", val := 10, form := "10-Q", filed := some "2023-04-01" })
          { concept := "SalesRevenueNet", unit := "USD", frame := "CY2023Q1I",
            endD := "2023-03-31", val := 12, form := "10-K", filed := some "2023-05-01" }).1
        "CY2023Q1").getD []) "Revenue" = some (Val.vi 12)
      ∧ rowGet ((storeGet (processFact (processFact (([] : Store), ([] : Store))
          { concept := "SalesRevenueNet", unit := "USD", frame := "CY2023Q1I",
            endD := "2023-03-31", val := 12, form := "10-K", filed := some "2023-05-01" })
          { concept := "Revenues", unit := "USD", frame := "CY2023Q1",
            endD := "2023-03-31", val := 10, form := "10-Q", filed := some "2023-04-01" }).1
        "CY2023Q1").getD []) "Revenue" = some (Val.vi 12) :=
  (conflict_resolution
    { concept := "Revenues", unit := "USD", frame := "CY2023Q1",
      endD := "2023-03-31", val := 10, form := "10-Q", filed := some "2023-04-01" }
    { concept := "SalesRevenueNet", unit := "USD", frame := "CY2023Q1I",
      endD := "2023-03-31", val := 12, form := "10-K", filed := some "2023-05-01" }
    [] [] Metric.revenue (by decide) (by decide) (by decide) (by decide) (by decide)
    (by decide) (by decide) (by decide) (by decide) (by decide)).1 (by decide)

theorem rowGet_empty (k : String) : rowGet ([] : Row) k = none := rfl

theorem initRow_get_some (qd : Store) (f : RawFact) (k : String) (w : Val)
    (h : rowGet ((storeGet qd (stripI f.frame)).getD []) k = some w) :
    rowGet (initRow qd f) k = some w := by
  unfold initRow
  cases hs : storeGet qd (stripI f.frame) with
  | some r =>
    rw [hs] at h
    simpa using h
  | none =>
    rw [hs] at h
    simp only [Option.getD_none] at h
    rw [rowGet_empty] at h
    cases h

theorem initRow_get_none (qd : Store) (f : RawFact) (k : String)
    (hk : ("end_date" == k) = false)
    (hinit : rowGet ((storeGet qd (stripI f.frame)).getD []) k = none) :
    rowGet (initRow qd f) k = none := by
  unfold initRow
  cases hs : storeGet qd (stripI f.frame) with
  | some r =>
    rw [hs] at hinit
    simpa using hinit
  | none =>
    show aGet [("end_date", Val.vs f.endD)] k = none
    rw [aGet_cons, if_neg (by simp [hk])]
    rfl

theorem getFiledD_of_rowGet {r : Row} {k s : String}
    (h : rowGet r k = some (Val.vs s)) : getFiledD r k = s := by
  unfold getFiledD
  rw [h]

theorem filedD_of_none {f : RawFact} (h : f.filed = none) : f.filedD = "0" := by
  unfold RawFact.filedD
  rw [h]
  rfl

theorem compRow_totalDebt {row : Row} {f : RawFact} {m : Metric} {ck : String}
    (hm : m = Metric.totalDebt) (hck : debtComponentKey f.concept = some ck) :
    compRow row f m = updateMetric row ck f.val f.filedD := by
  unfold compRow
  rw [if_pos hm]
  simp only [hck]

/-- C10: a fact with no filing date compares with the substituted string `0`,
so it never replaces a stored value whose recorded filing date is not below
`0` (every ISO date string), for canonical metrics and for the separately
tracked debt components alike; but it is stored when it is the first fact
seen for its key. -/
theorem missing_filed_date (f : RawFact) (qd ad : Store) (m : Metric)
    (hnone : f.filed = none)
    (hc : conceptMetric f.concept = some m)
    (hf : f.form = "10-Q" ∨ f.form = "10-K")
    (hu : f.unit = "USD" ∨ f.unit = "shares")
    (hna : ¬((m = Metric.revenue ∨ m = Metric.netProfit ∨ m = Metric.grossProfit)
      ∧ f.frame.length = 6)) :
    (∀ w s0, rowGet ((storeGet qd (stripI f.frame)).getD []) m.key = some w →
      rowGet ((storeGet qd (stripI f.frame)).getD []) (m.key ++ "_filed") = some (Val.vs s0) →
      strLt s0 "0" = false →
      rowGet ((storeGet (processFact (qd, ad) f).1 (stripI f.frame)).getD []) m.key = some w)
    ∧ (rowGet ((storeGet qd (stripI f.frame)).getD []) m.key = none →
      rowGet ((storeGet (processFact (qd, ad) f).1 (stripI f.frame)).getD []) m.key =
        some (Val.vi f.val))
    ∧ (∀ ck w s1, m = Metric.totalDebt → debtComponentKey f.concept = some ck →
      rowGet ((storeGet qd (stripI f.frame)).getD []) ck = some w →
      rowGet ((storeGet qd (stripI f.frame)).getD []) (ck ++ "_filed") = some (Val.vs s1) →
      strLt s1 "0" = false →
      rowGet ((storeGet (processFact (qd, ad) f).1 (stripI f.frame)).getD []) ck = some w)
    ∧ (∀ ck, m = Metric.totalDebt → debtComponentKey f.concept = some ck →
      rowGet ((storeGet qd (stripI f.frame)).getD []) ck = none →
      rowGet ((storeGet (processFact (qd, ad) f).1 (stripI f.frame)).getD []) ck =
        some (Val.vi f.val)) := by
  have hstep := processFact_quarterly (qd, ad) f m hc hf hu hna
  have hstore := processQuarterly_store qd f m
  have hd0 := filedD_of_none hnone
  refine ⟨?_, ?_, ?_, ?_⟩
  · intro w s0 hv hfs hge
    rw [hstep]
    show rowGet ((storeGet (processQuarterly qd f m) (stripI f.frame)).getD []) m.key = some w
    rw [hstore, Option.getD_some, updateMetric_get_self, compRow_get _ _ _ _ (Or.inl rfl),
      initRow_get_some qd f m.key w hv,
      getFiledD_congr (compRow_get _ _ _ _ (Or.inr rfl)),
      getFiledD_of_rowGet (initRow_get_some qd f (m.key ++ "_filed") (Val.vs s0) hfs),
      hd0, hge]
    rw [if_neg]
    simp
  · intro hv
    rw [hstep]
    show rowGet ((storeGet (processQuarterly qd f m) (stripI f.frame)).getD []) m.key =
      some (Val.vi f.val)
    have h0 : rowGet (compRow (initRow qd f) f m) m.key = none := by
      rw [compRow_get _ _ _ _ (Or.inl rfl)]
      exact initRow_mkey qd f m hv
    rw [hstore, Option.getD_some, updateMetric_get_self, if_pos (by rw [h0]; exact Or.inl rfl)]
  · intro ck w s1 hm hck hv hfs hge
    rw [hstep]
    show rowGet ((storeGet (processQuarterly qd f m) (stripI f.frame)).getD []) ck = some w
    have hckc := debtComp_cases hck
    rw [hstore, Option.getD_some]
    rw [updateMetric_get_other _ _ _ _ _
      (by subst hm; rcases hckc with rfl | rfl <;> decide)
      (by subst hm; rcases hckc with rfl | rfl <;> decide)]
    rw [compRow_totalDebt hm hck, updateMetric_get_self,
      initRow_get_some qd f ck w hv,
      getFiledD_of_rowGet (initRow_get_some qd f (ck ++ "_filed") (Val.vs s1) hfs),
      hd0, hge]
    rw [if_neg]
    simp
  · intro ck hm hck hv
    rw [hstep]
    show rowGet ((storeGet (processQuarterly qd f m) (stripI f.frame)).getD []) ck =
      some (Val.vi f.val)
    have hckc := debtComp_cases hck
    rw [hstore, Option.getD_some]
    rw [updateMetric_get_other _ _ _ _ _
      (by subst hm; rcases hckc with rfl | rfl <;> decide)
      (by subst hm; rcases hckc with rfl | rfl <;> decide)]
    have h0 : rowGet (initRow qd f) ck = none := by
      refine initRow_get_none qd f ck ?_ hv
      rcases hckc with rfl | rfl <;> decide
    rw [compRow_totalDebt hm hck, updateMetric_get_self, if_pos (by rw [h0]; exact Or.inl rfl)]

/-- Witness for the C10 theorem: a short-term debt fact with no filing date
against a record already holding Total Debt 5 and short-term debt 2 with
recorded filing dates; neither value is replaced. -/
theorem missing_filed_date_witness :
    rowGet ((storeGet (processFact
        ([("CY2023Q1", [("Total Debt", Val.vi 5), ("Total Debt_filed", Val.vs "2023-04-01"),
            ("short_term_debt", Val.vi 2), ("short_term_debt_filed", Val.vs "2023-04-01")])],
          ([] : Store))
        { concept := "ShortTermDebt", unit := "USD", frame := "CY2023Q1",
          endD := "2023-03-31", val := 9, form := "10-Q", filed := none }).1
        "CY2023Q1").getD []) "Total Debt" = some (Val.vi 5)
      ∧ rowGet ((storeGet (processFact
        ([("CY2023Q1", [("Total Debt", Val.vi 5), ("Total Debt_filed", Val.vs "2023-04-01"),
            ("short_term_debt", Val.vi 2), ("short_term_debt_filed", Val.vs "2023-04-01")])],
          ([] : Store))
        { concept := "ShortTermDebt", unit := "USD", frame := "CY2023Q1",
          endD := "2023-03-31", val := 9, form := "10-Q", filed := none }).1
        "CY2023Q1").getD []) "short_term_debt" = some (Val.vi 2) := by
  constructor
  · exact (missing_filed_date
      { concept := "ShortTermDebt", unit := "USD", frame := "CY2023Q1",
        endD := "2023-03-31", val := 9, form := "10-Q", filed := none }
      [("CY2023Q1", [("Total Debt", Val.vi 5), ("Total Debt_filed", Val.vs "2023-04-01"),
        ("short_term_debt", Val.vi 2), ("short_term_debt_filed", Val.vs "2023-04-01")])]
      [] Metric.totalDebt rfl (by decide) (by decide) (by decide) (by decide)).1
      (Val.vi 5) "2023-04-01" (by decide) (by decide) (by decide)
  · exact (missing_filed_date
      { concept := "ShortTermDebt", unit := "USD", frame := "CY2023Q1",
        endD := "2023-03-31", val := 9, form := "10-Q", filed := none }
      [("CY2023Q1", [("Total Debt", Val.vi 5), ("Total Debt_filed", Val.vs "2023-04-01"),
        ("short_term_debt", Val.vi 2), ("short_term_debt_filed", Val.vs "2023-04-01")])]
      [] Metric.totalDebt rfl (by decide) (by decide) (by decide) (by decide)).2.2.1
      "short_term_debt" (Val.vi 2) "2023-04-01" rfl (by decide) (by decide) (by decide)
      (by decide)

theorem ffillAux_ne_nil {o : Option Int} {xs : List (Option Int)} (h : xs ≠ []) :
    ffillAux o xs ≠ [] := by
  cases xs with
  | nil => exact absurd rfl h
  | cons x t => cases x <;> simp [ffillAux]

theorem getLast?_cons_of_ne_nil {α : Type} {l : List α} (a : α) (h : l ≠ []) :
    (a :: l).getLast? = l.getLast? := by
  cases l with
  | nil => exact absurd rfl h
  | cons b t => exact List.getLast?_cons_cons

theorem ffillAux_getLast_some :
    ∀ (xs : List (Option Int)) (o : Option Int),
      (∃ v, some v ∈ xs) ∨ (∃ v0, o = some v0 ∧ xs ≠ []) →
      ∃ v, (ffillAux o xs).getLast? = some (some v) := by
  intro xs
  induction xs with
  | nil =>
    intro o h
    rcases h with ⟨v, hv⟩ | ⟨v0, _, hne⟩
    · cases hv
    · exact absurd rfl hne
  | cons x t ih =>
    intro o h
    cases t with
    | nil =>
      cases x with
      | some v => exact ⟨v, rfl⟩
      | none =>
        rcases h with ⟨v, hv⟩ | ⟨v0, ho, _⟩
        · simp at hv
        · subst ho
          exact ⟨v0, rfl⟩
    | cons y t2 =>
      cases x with
      | some v =>
        obtain ⟨w, hw⟩ := ih (some v) (Or.inr ⟨v, rfl, by simp⟩)
        refine ⟨w, ?_⟩
        show ((some v) :: ffillAux (some v) (y :: t2)).getLast? = some (some w)
        rw [getLast?_cons_of_ne_nil _ (ffillAux_ne_nil (by simp))]
        exact hw
      | none =>
        have h2 : (∃ v, some v ∈ (y :: t2)) ∨ (∃ v0, o = some v0 ∧ (y :: t2) ≠ []) := by
          rcases h with ⟨v, hv⟩ | ⟨v0, ho, _⟩
          · rcases List.mem_cons.mp hv with hv | hv
            · exact absurd hv (by simp)
            · exact Or.inl ⟨v, hv⟩
          · exact Or.inr ⟨v0, ho, by simp⟩
        obtain ⟨w, hw⟩ := ih o h2
        refine ⟨w, ?_⟩
        show (o :: ffillAux o (y :: t2)).getLast? = some (some w)
        rw [getLast?_cons_of_ne_nil _ (ffillAux_ne_nil (by simp))]
        exact hw

theorem ffillAux_some_no_none :
    ∀ (xs : List (Option Int)) (v : Int), none ∉ ffillAux (some v) xs := by
  intro xs
  induction xs with
  | nil =>
    intro v h
    cases h
  | cons x t ih =>
    intro v h
    cases x with
    | none =>
      simp only [ffillAux] at h
      rcases List.mem_cons.mp h with h | h
      · exact absurd h (by simp)
      · exact ih v h
    | some w =>
      simp only [ffillAux] at h
      rcases List.mem_cons.mp h with h | h
      · exact absurd h (by simp)
      · exact ih w h

theorem seriesFill_no_none {xs : List (Option Int)} (h : ∃ v, some v ∈ xs) :
    none ∉ seriesFill xs := by
  obtain ⟨w, hw⟩ := ffillAux_getLast_some xs none (Or.inl h)
  unfold seriesFill bfill
  intro hmem
  rw [List.mem_reverse] at hmem
  have hrev : (ffill xs).reverse.head? = some (some w) := by
    rw [List.head?_reverse]
    exact hw
  cases hr : (ffill xs).reverse with
  | nil =>
    rw [hr] at hrev
    cases hrev
  | cons a rest =>
    rw [hr] at hrev
    have ha : a = some w := by simpa using hrev
    subst ha
    rw [hr] at hmem
    unfold ffill at hmem
    simp only [ffillAux] at hmem
    rcases List.mem_cons.mp hmem with hm | hm
    · exact absurd hm (by simp)
    · exact ffillAux_some_no_none rest w hm

theorem ffillAux_of_no_none :
    ∀ (xs : List (Option Int)) (o : Option Int), none ∉ xs → ffillAux o xs = xs := by
  intro xs
  induction xs with
  | nil =>
    intro o _
    rfl
  | cons x t ih =>
    intro o h
    cases x with
    | none => exact absurd (List.mem_cons_self _ _) h
    | some v =>
      simp only [ffillAux]
      rw [ih (some v) (fun hc => h (List.mem_cons_of_mem _ hc))]

theorem ffill_of_no_none {xs : List (Option Int)} (h : none ∉ xs) : ffill xs = xs :=
  ffillAux_of_no_none xs none h

theorem bfill_of_no_none {xs : List (Option Int)} (h : none ∉ xs) : bfill xs = xs := by
  unfold bfill
  rw [show ffill xs.reverse = ffillAux none xs.reverse from rfl]
  rw [ffillAux_of_no_none _ _ (by simpa using h)]
  exact List.reverse_reverse xs

theorem seriesFill_of_no_none {xs : List (Option Int)} (h : none ∉ xs) :
    seriesFill xs = xs := by
  unfold seriesFill
  rw [ffill_of_no_none h, bfill_of_no_none h]

theorem ffillAux_none_all_none :
    ∀ xs : List (Option Int), (∀ x ∈ xs, x = none) → ffillAux none xs = xs := by
  intro xs
  induction xs with
  | nil =>
    intro _
    rfl
  | cons x t ih =>
    intro h
    have hx : x = none := h x (List.mem_cons_self _ _)
    subst hx
    simp only [ffillAux]
    rw [ih (fun y hy => h y (List.mem_cons_of_mem _ hy))]

theorem seriesFill_all_none {xs : List (Option Int)} (h : ∀ x ∈ xs, x = none) :
    seriesFill xs = xs := by
  unfold seriesFill
  have h1 : ffill xs = xs := ffillAux_none_all_none xs h
  rw [h1]
  unfold bfill ffill
  rw [ffillAux_none_all_none _ (by intro x hx; exact h x (List.mem_reverse.mp hx))]
  exact List.reverse_reverse xs

theorem seriesFill_idem_col (xs : List (Option Int)) :
    seriesFill (seriesFill xs) = seriesFill xs := by
  by_cases h : ∃ v, some v ∈ xs
  · exact seriesFill_of_no_none (seriesFill_no_none h)
  · push_neg at h
    have hall : ∀ x ∈ xs, x = none := by
      intro x hx
      cases x with
      | none => rfl
      | some v => exact absurd hx (h v)
    rw [seriesFill_all_none hall, seriesFill_all_none hall]

theorem ffillAux_length :
    ∀ (o : Option Int) (xs : List (Option Int)), (ffillAux o xs).length = xs.length := by
  intro o xs
  induction xs generalizing o with
  | nil => rfl
  | cons x t ih => cases x <;> simp [ffillAux, ih]

theorem seriesFill_length (xs : List (Option Int)) : (seriesFill xs).length = xs.length := by
  unfold seriesFill bfill ffill
  simp [ffillAux_length]

theorem mapUpd_idem {β : Type} (t : List (String × β)) (k : String) (v : β) :
    (t.map (fun p => if p.1 == k then (k, v) else p)).map
        (fun p => if p.1 == k then (k, v) else p)
      = t.map (fun p => if p.1 == k then (k, v) else p) := by
  induction t with
  | nil => rfl
  | cons p t ih =>
    obtain ⟨x, w⟩ := p
    by_cases hx : (x == k) = true
    · simp only [List.map_cons, if_pos hx, if_pos (beq_self_eq_true k)]
      rw [ih]
    · simp only [List.map_cons, if_neg hx]
      rw [ih]

theorem aSet_aSet_same {β : Type} (l : List (String × β)) (k : String) (v : β) :
    aSet (aSet l k v) k v = aSet l k v := by
  induction l with
  | nil =>
    show aSet [(k, v)] k v = [(k, v)]
    rw [aSet_cons_eq _ _ _ _ _ (beq_self_eq_true k)]
    rfl
  | cons p t ih =>
    obtain ⟨x, w⟩ := p
    by_cases hx : (x == k) = true
    · rw [aSet_cons_eq _ _ _ _ _ hx, aSet_cons_eq _ _ _ _ _ (beq_self_eq_true k), mapUpd_idem]
    · have hxf : (x == k) = false := Bool.eq_false_iff.mpr hx
      rw [aSet_cons_ne _ _ _ _ _ hxf, aSet_cons_ne _ _ _ _ _ hxf, ih]

theorem setShares_setShares (r : Row) (v : Option Int) :
    setShares (setShares r v) v = setShares r v := by
  cases v with
  | none => rfl
  | some n => exact aSet_aSet_same r soKey (Val.vi n)

theorem writeBack_writeBack : ∀ (l : Store) (c : List (Option Int)),
    writeBack (writeBack l c) c = writeBack l c := by
  intro l
  induction l with
  | nil =>
    intro c
    cases c <;> rfl
  | cons p t ih =>
    intro c
    cases c with
    | nil => rfl
    | cons v vs =>
      obtain ⟨k, r⟩ := p
      show (k, setShares (setShares r v) v) :: writeBack (writeBack t vs) vs =
        (k, setShares r v) :: writeBack t vs
      rw [setShares_setShares, ih]

theorem any_key_of_aGet_some {β : Type} {l : List (String × β)} {k : String} {w : β}
    (h : aGet l k = some w) : l.any (fun p => p.1 == k) = true := by
  unfold aGet at h
  cases hf : l.find? (fun p => p.1 == k) with
  | none =>
    rw [hf] at h
    cases h
  | some q =>
    have hq := List.find?_some hf
    rw [List.any_eq_true]
    exact ⟨q, List.mem_of_find?_eq_some hf, hq⟩

theorem hasSOKey_of_getShares {r : Row} {n : Int} (h : getShares r = some n) :
    hasSOKey r = true := by
  unfold getShares getIntVal at h
  cases hg : rowGet r soKey with
  | none =>
    rw [hg] at h
    cases h
  | some w => exact any_key_of_aGet_some hg

theorem hasSOKey_setShares_some (r : Row) (n : Int) :
    hasSOKey (setShares r (some n)) = true :=
  any_key_of_aGet_some (aGet_aSet_self r soKey (Val.vi n))

theorem getShares_setShares_some (r : Row) (n : Int) :
    getShares (setShares r (some n)) = some n := by
  show getIntVal (rowSet r soKey (Val.vi n)) soKey = some n
  unfold getIntVal
  rw [rowGet_rowSet_self]

theorem writeBack_col : ∀ {l : Store} {c : List (Option Int)}, c.length = l.length →
    none ∉ c → (writeBack l c).map (fun p => getShares p.2) = c := by
  intro l
  induction l with
  | nil =>
    intro c hlen _
    cases c with
    | nil => rfl
    | cons v vs => simp at hlen
  | cons p t ih =>
    intro c hlen hnn
    cases c with
    | nil => simp at hlen
    | cons v vs =>
      obtain ⟨k, r⟩ := p
      cases v with
      | none => exact absurd (List.mem_cons_self _ _) hnn
      | some n =>
        show getShares (setShares r (some n)) :: (writeBack t vs).map (fun p => getShares p.2)
          = some n :: vs
        rw [getShares_setShares_some,
          ih (by simpa using hlen) (fun hc => hnn (List.mem_cons_of_mem _ hc))]

theorem writeBack_all_none : ∀ (l : Store) (c : List (Option Int)),
    (∀ x ∈ c, x = none) → c.length = l.length → writeBack l c = l := by
  intro l
  induction l with
  | nil =>
    intro c _ hlen
    cases c with
    | nil => rfl
    | cons v vs => simp at hlen
  | cons p t ih =>
    intro c h hlen
    cases c with
    | nil => simp at hlen
    | cons v vs =>
      obtain ⟨k, r⟩ := p
      have hv : v = none := h v (List.mem_cons_self _ _)
      subst hv
      show (k, setShares r none) :: writeBack t vs = (k, r) :: t
      rw [show setShares r none = r from rfl,
        ih vs (fun x hx => h x (List.mem_cons_of_mem _ hx)) (by simpa using hlen)]

theorem writeBack_map_fst : ∀ (l : Store) (c : List (Option Int)), c.length = l.length →
    (writeBack l c).map Prod.fst = l.map Prod.fst := by
  intro l
  induction l with
  | nil =>
    intro c hlen
    cases c with
    | nil => rfl
    | cons v vs => simp at hlen
  | cons p t ih =>
    intro c hlen
    cases c with
    | nil => simp at hlen
    | cons v vs =>
      obtain ⟨k, r⟩ := p
      show k :: (writeBack t vs).map Prod.fst = k :: t.map Prod.fst
      rw [ih vs (by simpa using hlen)]

instance : IsTotal (String × Row) kAsc := ⟨fun a b => strLe_total a.1 b.1⟩

instance : IsTrans (String × Row) kAsc := ⟨fun _ _ _ h1 h2 => strLe_trans h1 h2⟩

theorem writeBack_any_hasSO {l : Store} {c : List (Option Int)}
    (hl : l ≠ []) (hlen : c.length = l.length) (hnn : none ∉ c) :
    (writeBack l c).any (fun p => hasSOKey p.2) = true := by
  cases l with
  | nil => exact absurd rfl hl
  | cons p t =>
    cases c with
    | nil => simp at hlen
    | cons v vs =>
      cases v with
      | none => exact absurd (List.mem_cons_self _ _) hnn
      | some n =>
        obtain ⟨k, r⟩ := p
        show ((k, setShares r (some n)) :: writeBack t vs).any (fun p => hasSOKey p.2) = true
        rw [List.any_cons, hasSOKey_setShares_some]
        rfl

/-- C7: the shares-outstanding series filler (sort the table by period key,
forward fill, then backward fill the column) is idempotent: running it a
second time returns the identical table. -/
theorem fill_idempotent (qd : Store) : fillStage (fillStage qd) = fillStage qd := by
  by_cases hc : qd.any (fun p => hasSOKey p.2) = true
  case neg =>
    have h1 : fillStage qd = qd := by
      unfold fillStage
      rw [if_neg hc]
    rw [h1, h1]
  case pos =>
    have hfill1 : fillStage qd =
        writeBack (List.insertionSort kAsc qd)
          (seriesFill ((List.insertionSort kAsc qd).map (fun p => getShares p.2))) := by
      unfold fillStage
      rw [if_pos hc]
    have hlen : (seriesFill ((List.insertionSort kAsc qd).map
        (fun p => getShares p.2))).length = (List.insertionSort kAsc qd).length := by
      rw [seriesFill_length, List.length_map]
    have hsorted_s : List.Sorted kAsc (List.insertionSort kAsc qd) :=
      List.sorted_insertionSort kAsc qd
    obtain ⟨p0, hp0, hp0k⟩ := List.any_eq_true.mp hc
    by_cases hsome : ∃ v, some v ∈ (List.insertionSort kAsc qd).map (fun p => getShares p.2)
    case pos =>
      have hnn : none ∉ seriesFill ((List.insertionSort kAsc qd).map
          (fun p => getShares p.2)) := seriesFill_no_none hsome
      have hcol := writeBack_col hlen hnn
      have hsne : List.insertionSort kAsc qd ≠ [] :=
        List.ne_nil_of_mem ((List.mem_insertionSort kAsc).mpr hp0)
      have hcond2 := writeBack_any_hasSO hsne hlen hnn
      have hsorted2 : List.Sorted kAsc (writeBack (List.insertionSort kAsc qd)
          (seriesFill ((List.insertionSort kAsc qd).map (fun p => getShares p.2)))) := by
        have h2 : ((writeBack (List.insertionSort kAsc qd)
            (seriesFill ((List.insertionSort kAsc qd).map (fun p => getShares p.2)))).map
              Prod.fst).Pairwise (fun x y : String => strLe x y = true) := by
          rw [writeBack_map_fst _ _ hlen, List.pairwise_map]
          exact hsorted_s
        rw [List.pairwise_map] at h2
        exact h2
      have hfill2 : fillStage (writeBack (List.insertionSort kAsc qd)
          (seriesFill ((List.insertionSort kAsc qd).map (fun p => getShares p.2)))) =
          writeBack (List.insertionSort kAsc qd)
            (seriesFill ((List.insertionSort kAsc qd).map (fun p => getShares p.2))) := by
        unfold fillStage
        rw [if_pos hcond2, List.Sorted.insertionSort_eq hsorted2, hcol,
          seriesFill_of_no_none hnn]
        exact writeBack_writeBack _ _
      rw [hfill1, hfill2]
    case neg =>
      push_neg at hsome
      have hall : ∀ x ∈ (List.insertionSort kAsc qd).map (fun p => getShares p.2),
          x = none := by
        intro x hx
        cases x with
        | none => rfl
        | some v => exact absurd hx (hsome v)
      have hceq : seriesFill ((List.insertionSort kAsc qd).map (fun p => getShares p.2)) =
          (List.insertionSort kAsc qd).map (fun p => getShares p.2) := seriesFill_all_none hall
      have hwb : writeBack (List.insertionSort kAsc qd)
          (seriesFill ((List.insertionSort kAsc qd).map (fun p => getShares p.2))) =
          List.insertionSort kAsc qd := by
        rw [hceq]
        exact writeBack_all_none _ _ hall (by simp)
      rw [hfill1, hwb]
      unfold fillStage
      have hcond2 : (List.insertionSort kAsc qd).any (fun p => hasSOKey p.2) = true :=
        List.any_eq_true.mpr ⟨p0, (List.mem_insertionSort kAsc).mpr hp0, hp0k⟩
      rw [if_pos hcond2, List.Sorted.insertionSort_eq hsorted_s, hceq]
      exact writeBack_all_none _ _ hall (by simp)

theorem str_append_inj {y a b : String} (h : y ++ a = y ++ b) : a = b := by
  have hd := congrArg String.data h
  rw [String.data_append, String.data_append] at hd
  exact string_data_inj (List.append_cancel_left hd)

theorem string_ne_append_calc (k : String) : k ≠ k ++ "_calculated" := by
  intro h
  have hl := congrArg String.length h
  rw [String.length_append] at hl
  have h11 : "_calculated".length = 11 := rfl
  rw [h11] at hl
  omega

theorem fourQ_nodup (y : String) : (fourQ y).Nodup := by
  have h12 : y ++ "Q1" ≠ y ++ "Q2" := fun h => absurd (str_append_inj h) (by decide)
  have h13 : y ++ "Q1" ≠ y ++ "Q3" := fun h => absurd (str_append_inj h) (by decide)
  have h14 : y ++ "Q1" ≠ y ++ "Q4" := fun h => absurd (str_append_inj h) (by decide)
  have h23 : y ++ "Q2" ≠ y ++ "Q3" := fun h => absurd (str_append_inj h) (by decide)
  have h24 : y ++ "Q2" ≠ y ++ "Q4" := fun h => absurd (str_append_inj h) (by decide)
  have h34 : y ++ "Q3" ≠ y ++ "Q4" := fun h => absurd (str_append_inj h) (by decide)
  simp [fourQ, List.nodup_cons, h12, h13, h14, h23, h24, h34]

theorem storeGet_of_mem_nodup {qd : Store} {k : String} {r : Row}
    (hnd : (qd.map Prod.fst).Nodup) (hm : (k, r) ∈ qd) : storeGet qd k = some r :=
  aGet_of_mem_nodup hnd hm

theorem knownList_isSome {qd : Store} {y : String} {m : Metric} {p : String × Row}
    (hp : p ∈ knownList qd y m) : (getIntVal p.2 m.key).isSome = true := by
  have h := (List.mem_filter.mp hp).2
  simp only [Bool.and_eq_true] at h
  exact h.2

/-- C1: in the missing-quarter inference, for a year whose table holds the
metric in exactly three quarters (all of them among the year's four
quarters), the fourth quarter receives the annual total minus the sum of the
three known values, so that all four quarters hold the metric and their
values sum exactly to the annual total. -/
theorem missing_quarter_inference (qd : Store) (y : String) (av : Int) (m : Metric)
    (hnd : (qd.map Prod.fst).Nodup)
    (h3 : (knownList qd y m).length = 3)
    (hsub : ∀ p ∈ knownList qd y m, p.1 ∈ fourQ y) :
    ∃ qm ∈ fourQ y, (∀ p ∈ knownList qd y m, p.1 ≠ qm)
      ∧ getIntVal ((storeGet (inferMetricYear qd y av m) qm).getD []) m.key =
          some (av - knownSum qd y m)
      ∧ (∀ q ∈ fourQ y, (getIntVal ((storeGet (inferMetricYear qd y av m) q).getD [])
          m.key).isSome = true)
      ∧ ((fourQ y).map (fun q =>
          (getIntVal ((storeGet (inferMetricYear qd y av m) q).getD []) m.key).getD 0)).sum
        = av := by
  have hknd : ((knownList qd y m).map Prod.fst).Nodup :=
    List.Pairwise.sublist (List.Sublist.map Prod.fst (List.filter_sublist qd)) hnd
  have hklen : ((knownList qd y m).map Prod.fst).length = 3 := by
    rw [List.length_map]
    exact h3
  have hksub : ∀ x ∈ (knownList qd y m).map Prod.fst, x ∈ fourQ y := by
    intro x hx
    obtain ⟨p, hp, rfl⟩ := List.mem_map.mp hx
    exact hsub p hp
  have hmiss : ∃ q ∈ fourQ y, q ∉ (knownList qd y m).map Prod.fst := by
    by_contra hno
    push_neg at hno
    have hsubf : fourQ y ⊆ (knownList qd y m).map Prod.fst := fun x hx => hno x hx
    have hle := (List.subperm_of_subset (fourQ_nodup y) hsubf).length_le
    rw [hklen] at hle
    have h4 : (fourQ y).length = 4 := rfl
    omega
  have hfindSome : ((fourQ y).find? (fun q =>
      !((knownList qd y m).any (fun p => p.1 == q)))).isSome = true := by
    rw [List.find?_isSome]
    obtain ⟨q, hq, hnq⟩ := hmiss
    refine ⟨q, hq, ?_⟩
    rw [Bool.not_eq_true']
    rw [List.any_eq_false]
    intro p hp hpq
    exact hnq (List.mem_map.mpr ⟨p, hp, by simpa using hpq⟩)
  cases hfind : (fourQ y).find? (fun q =>
      !((knownList qd y m).any (fun p => p.1 == q))) with
  | none =>
    rw [hfind] at hfindSome
    cases hfindSome
  | some qm =>
  have hqmmem : qm ∈ fourQ y := List.mem_of_find?_eq_some hfind
  have hqmpred := List.find?_some hfind
  have hqmnot : ∀ p ∈ knownList qd y m, p.1 ≠ qm := by
    intro p hp
    have hfalse : (knownList qd y m).any (fun p => p.1 == qm) = false := by
      simpa using hqmpred
    have := List.any_eq_false.mp hfalse p hp
    simpa using this
  have hqmnotk : qm ∉ (knownList qd y m).map Prod.fst := by
    intro hx
    obtain ⟨p, hp, hpe⟩ := List.mem_map.mp hx
    exact hqmnot p hp hpe
  have hinfer : inferMetricYear qd y av m = storeSet qd qm
      (rowSet (rowSet ((storeGet qd qm).getD []) m.key (Val.vi (av - knownSum qd y m)))
        (m.key ++ "_calculated") (Val.vb true)) := by
    unfold inferMetricYear
    rw [if_pos h3, hfind]
  have hvqm : getIntVal ((storeGet (inferMetricYear qd y av m) qm).getD []) m.key =
      some (av - knownSum qd y m) := by
    rw [hinfer, storeGet_storeSet_self, Option.getD_some]
    unfold getIntVal
    rw [rowGet_rowSet_ne _ _ _ _ (string_ne_append_calc m.key), rowGet_rowSet_self]
  have hvother : ∀ q, q ≠ qm →
      storeGet (inferMetricYear qd y av m) q = storeGet qd q := by
    intro q hne
    rw [hinfer]
    exact storeGet_storeSet_ne _ _ _ _ hne
  have hqmFS : ∀ x, x ∈ fourQ y → x ≠ qm → x ∈ (knownList qd y m).map Prod.fst := by
    intro x hx hne
    have hKsub : ((knownList qd y m).map Prod.fst).toFinset ⊆
        ((fourQ y).toFinset).erase qm := by
      intro a ha
      rw [List.mem_toFinset] at ha
      refine Finset.mem_erase.mpr ⟨?_, ?_⟩
      · intro hc
        subst hc
        exact hqmnotk ha
      · exact List.mem_toFinset.mpr (hksub a ha)
    have hcardK : ((knownList qd y m).map Prod.fst).toFinset.card = 3 := by
      rw [List.toFinset_card_of_nodup hknd, hklen]
    have hcardF : ((fourQ y).toFinset).card = 4 := by
      rw [List.toFinset_card_of_nodup (fourQ_nodup y)]
      rfl
    have hcardE : (((fourQ y).toFinset).erase qm).card = 3 := by
      rw [Finset.card_erase_of_mem (List.mem_toFinset.mpr hqmmem), hcardF]
    have heq := Finset.eq_of_subset_of_card_le hKsub (by rw [hcardE, hcardK])
    have hxe : x ∈ ((fourQ y).toFinset).erase qm :=
      Finset.mem_erase.mpr ⟨hne, List.mem_toFinset.mpr hx⟩
    rw [← heq] at hxe
    exact List.mem_toFinset.mp hxe
  have hvknown : ∀ p ∈ knownList qd y m,
      getIntVal ((storeGet (inferMetricYear qd y av m) p.1).getD []) m.key =
        getIntVal p.2 m.key := by
    intro p hp
    rw [hvother p.1 (hqmnot p hp)]
    have hpq : (p.1, p.2) ∈ qd := List.mem_of_mem_filter hp
    rw [storeGet_of_mem_nodup hnd hpq]
    rfl
  have hall : ∀ q ∈ fourQ y,
      (getIntVal ((storeGet (inferMetricYear qd y av m) q).getD []) m.key).isSome = true := by
    intro q hq
    by_cases hqe : q = qm
    · subst hqe
      rw [hvqm]
      rfl
    · obtain ⟨p, hp, hpe⟩ := List.mem_map.mp (hqmFS q hq hqe)
      rw [← hpe, hvknown p hp]
      exact knownList_isSome hp
  have hperm : List.Perm (fourQ y) (qm :: (fourQ y).erase qm) := List.perm_cons_erase hqmmem
  have hpermE : List.Perm ((fourQ y).erase qm) ((knownList qd y m).map Prod.fst) := by
    rw [List.perm_ext_iff_of_nodup (List.Nodup.erase qm (fourQ_nodup y)) hknd]
    intro a
    constructor
    · intro ha
      have hpair := ((fourQ_nodup y).mem_erase_iff).mp ha
      exact hqmFS a hpair.2 hpair.1
    · intro ha
      refine ((fourQ_nodup y).mem_erase_iff).mpr ⟨?_, hksub a ha⟩
      intro hc
      subst hc
      exact hqmnotk ha
  have hsum1 : ((fourQ y).map (fun q =>
      (getIntVal ((storeGet (inferMetricYear qd y av m) q).getD []) m.key).getD 0)).sum =
      (av - knownSum qd y m) +
        (((fourQ y).erase qm).map (fun q =>
          (getIntVal ((storeGet (inferMetricYear qd y av m) q).getD []) m.key).getD 0)).sum := by
    rw [List.Perm.sum_eq (List.Perm.map _ hperm), List.map_cons, List.sum_cons, hvqm]
    rfl
  have hsum2 : (((fourQ y).erase qm).map (fun q =>
      (getIntVal ((storeGet (inferMetricYear qd y av m) q).getD []) m.key).getD 0)).sum =
      knownSum qd y m := by
    rw [List.Perm.sum_eq (List.Perm.map _ hpermE), List.map_map]
    unfold knownSum
    congr 1
    apply List.map_congr_left
    intro p hp
    show (getIntVal ((storeGet (inferMetricYear qd y av m) p.1).getD []) m.key).getD 0 =
      (getIntVal p.2 m.key).getD 0
    rw [hvknown p hp]
  refine ⟨qm, hqmmem, hqmnot, hvqm, hall, ?_⟩
  rw [hsum1, hsum2]
  omega

theorem startsWithL_nil (l : List Char) : startsWithL l [] = true := by
  cases l <;> rfl

theorem startsWithL_append : ∀ (l t : List Char), startsWithL (l ++ t) l = true := by
  intro l
  induction l with
  | nil =>
    intro t
    exact startsWithL_nil _
  | cons a as ih =>
    intro t
    show (a == a && startsWithL (as ++ t) as) = true
    rw [beq_self_eq_true, ih]
    rfl

theorem strEndsWith_append (s suf : String) : strEndsWith (s ++ suf) suf = true := by
  unfold strEndsWith
  rw [String.data_append, List.reverse_append]
  exact startsWithL_append suf.data.reverse s.data.reverse

theorem keepKey_calc (k : String) : keepKey (k ++ "_calculated") = false := by
  unfold keepKey
  rw [strEndsWith_append]
  simp

theorem rowGet_stripRow_none {k : String} (hk : keepKey k = false) (r : Row) :
    rowGet (stripRow r) k = none := by
  unfold stripRow
  induction r with
  | nil => rfl
  | cons p t ih =>
    obtain ⟨x, v⟩ := p
    rw [List.filter_cons]
    split
    · rename_i hkeep
      show aGet ((x, v) :: List.filter (fun p => keepKey p.1) t) k = none
      rw [aGet_cons, if_neg ?_]
      · exact ih
      · intro hxk
        have hx : x = k := by simpa using hxk
        subst hx
        rw [hk] at hkeep
        cases hkeep
    · exact ih

/-- C5 (amended): the missing-quarter inference does flag the inferred
quarter with `<metric>_calculated = true` on the working record, but the
cleanup pass strips every `_calculated` key before the output table is
built, so the records handed to the presentation layer carry no calculated
flag. -/
theorem calculated_flag_stripped (qd : Store) (y : String) (av : Int) (m : Metric)
    (qm : String)
    (h3 : (knownList qd y m).length = 3)
    (hfind : (fourQ y).find? (fun q => !((knownList qd y m).any (fun p => p.1 == q)))
      = some qm) :
    rowGet ((storeGet (inferMetricYear qd y av m) qm).getD []) (m.key ++ "_calculated") =
        some (Val.vb true)
      ∧ (∀ r : Row, ∀ mk : Metric, rowGet (stripRow r) (mk.key ++ "_calculated") = none) := by
  constructor
  · unfold inferMetricYear
    rw [if_pos h3, hfind]
    rw [storeGet_storeSet_self, Option.getD_some, rowGet_rowSet_self]
  · intro r mk
    exact rowGet_stripRow_none (keepKey_calc mk.key) r

/-- Witness for the C1 theorem: known quarters 10, 20, 30 with annual total
100 give an inferred fourth quarter of exactly 40, and the four quarterly
values sum to 100. -/
theorem missing_quarter_inference_witness :
    getIntVal ((storeGet (inferMetricYear
        [("CY2023Q1", [("Revenue", Val.vi 10)]), ("CY2023Q2", [("Revenue", Val.vi 20)]),
         ("CY2023Q3", [("Revenue", Val.vi 30)])] "CY2023" 100 Metric.revenue)
        "CY2023Q4").getD []) "Revenue" = some 40
      ∧ ((fourQ "CY2023").map (fun q => (getIntVal ((storeGet (inferMetricYear
          [("CY2023Q1", [("Revenue", Val.vi 10)]), ("CY2023Q2", [("Revenue", Val.vi 20)]),
           ("CY2023Q3", [("Revenue", Val.vi 30)])] "CY2023" 100 Metric.revenue)
          q).getD []) "Revenue").getD 0)).sum = 100 := by
  obtain ⟨qm, hqm, hnot, hval, -, hsum⟩ := missing_quarter_inference
    [("CY2023Q1", [("Revenue", Val.vi 10)]), ("CY2023Q2", [("Revenue", Val.vi 20)]),
     ("CY2023Q3", [("Revenue", Val.vi 30)])] "CY2023" 100 Metric.revenue
    (by decide) (by decide) (by decide)
  have h1 := hnot ("CY2023Q1", [("Revenue", Val.vi 10)]) (by decide)
  have h2 := hnot ("CY2023Q2", [("Revenue", Val.vi 20)]) (by decide)
  have h3 := hnot ("CY2023Q3", [("Revenue", Val.vi 30)]) (by decide)
  have hm : qm = "CY2023" ++ "Q1" ∨ qm = "CY2023" ++ "Q2" ∨ qm = "CY2023" ++ "Q3"
      ∨ qm = "CY2023" ++ "Q4" := by
    simpa [fourQ] using hqm
  have hqm4 : qm = "CY2023" ++ "Q4" := by
    rcases hm with rfl | rfl | rfl | rfl
    · exact absurd (by decide) h1
    · exact absurd (by decide) h2
    · exact absurd (by decide) h3
    · rfl
  subst hqm4
  constructor
  · exact hval.trans (by decide)
  · exact hsum

/-- Witness for the C5 theorem: the inferred fourth quarter carries the
`Revenue_calculated` flag on the working record, and stripping any record
removes the flag. -/
theorem calculated_flag_stripped_witness :
    rowGet ((storeGet (inferMetricYear
        [("CY2023Q1", [("Revenue", Val.vi 10)]), ("CY2023Q2", [("Revenue", Val.vi 20)]),
         ("CY2023Q3", [("Revenue", Val.vi 30)])] "CY2023" 100 Metric.revenue)
        ("CY2023" ++ "Q4")).getD []) "Revenue_calculated" = some (Val.vb true)
      ∧ rowGet (stripRow [("Revenue", Val.vi 40), ("Revenue_calculated", Val.vb true)])
          "Revenue_calculated" = none := by
  have h := calculated_flag_stripped
    [("CY2023Q1", [("Revenue", Val.vi 10)]), ("CY2023Q2", [("Revenue", Val.vi 20)]),
     ("CY2023Q3", [("Revenue", Val.vi 30)])] "CY2023" 100 Metric.revenue ("CY2023" ++ "Q4")
    (by decide) (by decide)
  exact ⟨h.1, h.2 [("Revenue", Val.vi 40), ("Revenue_calculated", Val.vb true)]
    Metric.revenue⟩

instance : IsTotal (String × Row) kDesc := ⟨fun a b => strLe_total b.1 a.1⟩

instance : IsTrans (String × Row) kDesc := ⟨fun _ _ _ h1 h2 => strLe_trans h2 h1⟩

instance : IsTotal (String × Row) dDesc := by
  constructor
  intro a b
  unfold dDesc dDescB
  rcases endDateOf a.2 with _ | x <;> rcases endDateOf b.2 with _ | y <;> simp
  exact strLe_total y x

instance : IsTrans (String × Row) dDesc := by
  constructor
  intro a b c h1 h2
  unfold dDesc dDescB at h1 h2 ⊢
  generalize endDateOf a.2 = ea at h1 ⊢
  generalize endDateOf b.2 = eb at h1 h2
  generalize endDateOf c.2 = ec at h2 ⊢
  cases ea <;> cases eb <;> cases ec <;>
    first
      | rfl
      | exact (Bool.false_ne_true h2).elim
      | exact (Bool.false_ne_true h1).elim
      | exact strLe_trans h2 h1

/-- C3 (amended): the final stage keeps at most twenty records, and its
output is the twenty-record prefix of the table rearranged into
end-date-descending order (records without a recorded end date last, the
end-date column then dropped) when any record has an end date, or into
period-key-descending order otherwise; a purely inferred record has no
recorded end date and is therefore placed after all dated records rather
than at its calendar position. -/
theorem output_order_amended (qd : Store) :
    (finalStage qd).length ≤ 20
    ∧ ∃ l : Store, List.Perm l qd ∧
      ((qd.any (fun p => p.2.any (fun e => e.1 == "end_date")) = true
          ∧ List.Sorted dDesc l
          ∧ finalStage qd = (l.map (fun p => (p.1, dropEndDate p.2))).take 20)
        ∨ (qd.any (fun p => p.2.any (fun e => e.1 == "end_date")) = false
          ∧ List.Sorted kDesc l
          ∧ finalStage qd = l.take 20)) := by
  constructor
  · unfold finalStage
    split <;> (rw [List.length_take]; exact min_le_left _ _)
  · rcases Bool.eq_false_or_eq_true (qd.any (fun p => p.2.any (fun e => e.1 == "end_date")))
      with hc | hc
    · refine ⟨List.insertionSort dDesc qd, List.perm_insertionSort dDesc qd,
        Or.inl ⟨hc, List.sorted_insertionSort dDesc qd, ?_⟩⟩
      unfold finalStage
      rw [if_pos hc]
    · refine ⟨List.insertionSort kDesc qd, List.perm_insertionSort kDesc qd,
        Or.inr ⟨hc, List.sorted_insertionSort kDesc qd, ?_⟩⟩
      unfold finalStage
      rw [if_neg (by rw [hc]; exact Bool.false_ne_true)]

/-- C3 counterexample: three dated quarters plus an annual total make the
engine infer the fourth quarter with no recorded end date; the inferred
quarter — whose calendar quarter end date is the greatest of the four — is
sorted last, so the output is not ordered by the quarters' end dates. -/
theorem output_order_counterexample :
    (get_quarterly_data
        [{ concept := "Revenues", unit := "USD", frame := "CY2023Q1",
           endD := "2023-03-31", val := 10, form := "10-Q", filed := some "2023-04-15" },
         { concept := "Revenues", unit := "USD", frame := "CY2023Q2",
           endD := "2023-06-30", val := 15, form := "10-Q", filed := some "2023-07-15" },
         { concept := "Revenues", unit := "USD", frame := "CY2023Q3",
           endD := "2023-09-30", val := 18, form := "10-Q", filed := some "2023-10-15" },
         { concept := "Revenues", unit := "USD", frame := "CY2023",
           endD := "2023-12-31", val := 75, form := "10-K", filed := some "2023-12-01" }]
        []).map Prod.fst = ["CY2023Q3", "CY2023Q2", "CY2023Q1", "CY2023Q4"]
      ∧ ¬ List.Pairwise (fun a b : String =>
          strLe ((calQuarterEnd b).getD "") ((calQuarterEnd a).getD "") = true)
          ((get_quarterly_data
            [{ concept := "Revenues", unit := "USD", frame := "CY2023Q1",
               endD := "2023-03-31", val := 10, form := "10-Q", filed := some "2023-04-15" },
             { concept := "Revenues", unit := "USD", frame := "CY2023Q2",
               endD := "2023-06-30", val := 15, form := "10-Q", filed := some "2023-07-15" },
             { concept := "Revenues", unit := "USD", frame := "CY2023Q3",
               endD := "2023-09-30", val := 18, form := "10-Q", filed := some "2023-10-15" },
             { concept := "Revenues", unit := "USD", frame := "CY2023",
               endD := "2023-12-31", val := 75, form := "10-K", filed := some "2023-12-01" }]
            []).map Prod.fst) := by
  constructor
  · decide
  · decide

/-- C9: on the empty collection of raw facts (and no shares entries) the
engine returns the empty output table; the embedding is a total function,
so every partial input runs to completion with absences rather than
exceptions. -/
theorem empty_input_empty_output : get_quarterly_data [] [] = [] := rfl

/-- C5 counterexample: the end-to-end scenario (Q1 restated 10 to 12, Q2 15,
Q3 18, annual 75) infers Q4 = 30, but the output record for Q4 holds no
`Revenue_calculated` flag — the cleanup pass removed it before output. -/
theorem calculated_flag_counterexample :
    getIntVal ((storeGet (get_quarterly_data
        [{ concept := "Revenues", unit := "USD", frame := "CY2023Q1",
           endD := "2023-03-31", val := 10, form := "10-Q", filed := some "2023-04-01" },
         { concept := "Revenues", unit := "USD", frame := "CY2023Q1",
           endD := "2023-03-31", val := 12, form := "10-Q", filed := some "2023-05-01" },
         { concept := "Revenues", unit := "USD", frame := "CY2023Q2",
           endD := "2023-06-30", val := 15, form := "10-Q", filed := some "2023-07-01" },
         { concept := "Revenues", unit := "USD", frame := "CY2023Q3",
           endD := "2023-09-30", val := 18, form := "10-Q", filed := some "2023-10-01" },
         { concept := "Revenues", unit := "USD", frame := "CY2023",
           endD := "2023-12-31", val := 75, form := "10-K", filed := some "2023-12-01" }]
        []) "CY2023Q4").getD []) "Revenue" = some 30
      ∧ rowGet ((storeGet (get_quarterly_data
        [{ concept := "Revenues", unit := "USD", frame := "CY2023Q1",
           endD := "2023-03-31", val := 10, form := "10-Q", filed := some "2023-04-01" },
         { concept := "Revenues", unit := "USD", frame := "CY2023Q1",
           endD := "2023-03-31", val := 12, form := "10-Q", filed := some "2023-05-01" },
         { concept := "Revenues", unit := "USD", frame := "CY2023Q2",
           endD := "2023-06-30", val := 15, form := "10-Q", filed := some "2023-07-01" },
         { concept := "Revenues", unit := "USD", frame := "CY2023Q3",
           endD := "2023-09-30", val := 18, form := "10-Q", filed := some "2023-10-01" },
         { concept := "Revenues", unit := "USD", frame := "CY2023",
           endD := "2023-12-31", val := 75, form := "10-K", filed := some "2023-12-01" }]
        []) "CY2023Q4").getD []) "Revenue_calculated" = none := by
  constructor
  · decide
  · decide
